import Mathlib

/-!
A shallow embedding of the linked-chain library (src/linked-chain.ts).

The source is a TypeScript class LinkedChain (a doubly linked graph node)
together with LinkedChainHistory (a per-lineage ledger of deltas and
checkpoints).  JavaScript reference semantics matter for several of the
properties below, so the embedding is heap-based:

* nodes live in a list, addressed by position (a NodeId is a Nat);
* data payloads are plain objects, modelled as association lists from field
  keys (Nat) to field values (Int), and live in their own heap so that
  aliasing and in-place mutation (Object.assign) are faithful;
* histories live in a third heap.

Payload field values are modelled as primitives, so the shallow strict
inequality check of calculate_delta is value inequality.  A payload object is
always truthy in JS, so presence of data is exactly the truthiness the source
tests with new_data and latest_state.data().
-/

namespace LC

/-- A JavaScript object payload: an association list from field keys to field
values, in insertion order.  Objects the library builds never carry a
duplicate key. -/
abbrev Obj := List (Nat × Int)

/-- JS property read on a payload object. -/
def Obj.get (o : Obj) (k : Nat) : Option Int :=
  (o.find? (fun kv => kv.1 == k)).map (fun kv => kv.2)

/-- JS property write: an existing key is updated in place (keeping its
position); a new key is appended at the end. -/
def Obj.setKey : Obj → Nat → Int → Obj
  | [], k, v => [(k, v)]
  | kv :: rest, k, v => if kv.1 = k then (k, v) :: rest else kv :: Obj.setKey rest k v

/-- Object.assign(target, delta): copy every field of delta onto target, in
the iteration order of delta. -/
def Obj.assign (target delta : Obj) : Obj :=
  delta.foldl (fun acc kv => Obj.setKey acc kv.1 kv.2) target

/-- Metadata (id, title, description, extra); every field is optional, none
modelling a JS undefined field. -/
structure Meta where
  id : Option Int := none
  title : Option String := none
  description : Option String := none
  extra : Option Obj := none
  deriving DecidableEq

/-- A metadata delta object as built by calculate_metadata_delta.  An outer
some models that the key was written onto the delta object (the stored value
may itself be undefined). -/
structure MetaDelta where
  title : Option (Option String) := none
  description : Option (Option String) := none
  deriving DecidableEq

/-- Object.keys(meta_delta).length is zero. -/
def MetaDelta.isEmpty (d : MetaDelta) : Bool :=
  d.title.isNone && d.description.isNone

/-- Object.assign of a metadata delta onto a metadata object. -/
def applyMetaDelta (m : Meta) (d : MetaDelta) : Meta :=
  { m with title := d.title.getD m.title, description := d.description.getD m.description }

/-- A history timeline entry (type HistoryEntry of the source): timestamp,
optional data delta, optional metadata delta, optional checkpoint (the NodeId
of a full snapshot node). -/
structure Entry where
  timestamp : Nat := 0
  data_delta : Option Obj := none
  metadata_delta : Option MetaDelta := none
  checkpoint : Option Nat := none
  deriving DecidableEq

/-- A LinkedChain node.  data holds the id of a payload object in the object
heap (none models undefined); previous and next are NodeIds (none models
null); progeny and ancestors are the cumulative neighbor sets; hist is the id
of the node's LinkedChainHistory. -/
structure Node where
  data : Option Nat := none
  metadata : Option Meta := none
  previous : Option Nat := none
  next : Option Nat := none
  progeny : List Nat := []
  ancestors : List Nat := []
  origin : Option Nat := none
  is_snapshot : Bool := false
  hist : Nat := 0
  deriving DecidableEq

/-- A LinkedChainHistory: the timeline, the NodeIds of the original and the
running latest snapshot, and the saved checkpoints. -/
structure Hist where
  timeline : List Entry := []
  original_state : Nat := 0
  latest_state : Nat := 0
  saved_checkpoints : List Nat := []
  deriving DecidableEq

/-- The whole heap: nodes, payload objects and histories, each addressed by
position, plus the current clock (the value Date.now() returns). -/
structure World where
  nodes : List Node := []
  objs : List Obj := []
  hists : List Hist := []
  time : Nat := 0
  deriving DecidableEq

def World.empty : World := {}

def World.getNode (w : World) (nid : Nat) : Option Node := w.nodes[nid]?

def World.getObj (w : World) (oid : Nat) : Option Obj := w.objs[oid]?

def World.getHist (w : World) (hid : Nat) : Option Hist := w.hists[hid]?

/-- Mutate the node at nid in place (a no-op when the id is dead, which never
happens for worlds built by the operations). -/
def World.setNode (w : World) (nid : Nat) (f : Node → Node) : World :=
  match w.nodes[nid]? with
  | some n => { w with nodes := w.nodes.set nid (f n) }
  | none => w

/-- Mutate the payload object at oid in place. -/
def World.setObj (w : World) (oid : Nat) (o : Obj) : World :=
  { w with objs := w.objs.set oid o }

/-- Mutate the history at hid in place. -/
def World.setHist (w : World) (hid : Nat) (f : Hist → Hist) : World :=
  match w.hists[hid]? with
  | some h => { w with hists := w.hists.set hid (f h) }
  | none => w

/-- Append a freshly constructed history to the heap. -/
def World.pushHist (w : World) (h : Hist) : World :=
  { w with hists := w.hists ++ [h] }

/-- Allocate a new node; its id is the current length of the node heap. -/
def World.allocNode (w : World) (n : Node) : World × Nat :=
  ({ w with nodes := w.nodes ++ [n] }, w.nodes.length)

/-- Allocate a new payload object. -/
def World.allocObj (w : World) (o : Obj) : World × Nat :=
  ({ w with objs := w.objs ++ [o] }, w.objs.length)

/-- JS Set.add: adds the element unless already a member. -/
def addToSet (xs : List Nat) (x : Nat) : List Nat :=
  if x ∈ xs then xs else xs ++ [x]

/-- The metadata() accessor: the stored metadata object, or the default
object with empty title, empty description and empty extra when _metadata is
undefined. -/
def metadataOf (n : Node) : Meta :=
  n.metadata.getD { id := none, title := some "", description := some "", extra := some [] }

/-- calculate_delta(oldObj, newObj): iterate the keys of newObj and keep every
field whose value differs (shallow strict inequality) from the corresponding
field of oldObj. -/
def calculate_delta (oldObj newObj : Obj) : Obj :=
  newObj.filter (fun kv => !(Obj.get oldObj kv.1 == some kv.2))

/-- calculate_metadata_delta: a title or description key is written onto the
delta object exactly when the two values differ. -/
def calculate_metadata_delta (old_metadata new_metadata : Meta) : MetaDelta :=
  { title := if old_metadata.title ≠ new_metadata.title then some new_metadata.title else none,
    description :=
      if old_metadata.description ≠ new_metadata.description then some new_metadata.description
      else none }

/-- The metadata merge performed inside update and update_metadata: a field of
the incoming metadata wins unless it is undefined. -/
def mergeMeta (incoming current : Meta) : Meta :=
  { id := incoming.id <|> current.id,
    title := incoming.title <|> current.title,
    description := incoming.description <|> current.description,
    extra := incoming.extra <|> current.extra }

/-- The LinkedChainIngredients configuration record.  For parent and next the
outer option models whether the field was supplied at all and the inner option
models node versus null (update distinguishes the two; the constructor
collapses them with a nullish coalesce). -/
structure Ingredients where
  origin : Option Nat := none
  parent : Option (Option Nat) := none
  next : Option (Option Nat) := none
  data : Option Nat := none
  metadata : Option Meta := none
  is_snapshot : Option Bool := none
  history : Option Nat := none
  deriving DecidableEq

/-- universalClone applied to the optional data payload: undefined stays
undefined, an object is deep-copied into a fresh heap cell. -/
def cloneData (w : World) (d : Option Nat) : World × Option Nat :=
  match d with
  | none => (w, none)
  | some oid =>
    match w.getObj oid with
    | some o => ((w.allocObj o).1, some (w.allocObj o).2)
    | none => (w, some oid)

/-- The tail of the constructor (lines: Initialize branching sets): register
the freshly built node into the ancestor/progeny sets of the previous and
next neighbors it was constructed with. -/
def registerPrev (w : World) (nid : Nat) : World :=
  match (w.getNode nid).bind Node.previous with
  | some p =>
    (w.setNode nid (fun n => { n with ancestors := addToSet n.ancestors p })).setNode p
      (fun n => { n with progeny := addToSet n.progeny nid })
  | none => w

def registerNext (w : World) (nid : Nat) : World :=
  match (w.getNode nid).bind Node.next with
  | some nx =>
    (w.setNode nid (fun n => { n with progeny := addToSet n.progeny nx })).setNode nx
      (fun n => { n with ancestors := addToSet n.ancestors nid })
  | none => w

def registerNeighbors (w : World) (nid : Nat) : World :=
  registerNext (registerPrev w nid) nid

/-- The constructor in the case is_snapshot and a shared history were both
supplied: no fresh history is created, the node simply shares hid. -/
def mkSnapshotNode (w : World) (ing : Ingredients) (hid : Nat) : World × Nat :=
  let (w1, nid) := w.allocNode
    { data := ing.data, previous := ing.parent.getD none, next := ing.next.getD none,
      origin := ing.origin, metadata := ing.metadata,
      is_snapshot := true, hist := hid, progeny := [], ancestors := [] }
  (registerNeighbors w1 nid, nid)

/-- create_snapshot_link(link): clone the data with universalClone, spread the
metadata object, copy the graph pointers and construct a snapshot node sharing
the history hid (the nested constructor registers the snapshot into the copied
neighbors' sets). -/
def create_snapshot_link (w : World) (hid : Nat) (link : Nat) : World × Nat :=
  match w.getNode link with
  | none => (w, 0)
  | some ln =>
    let (w1, d) := cloneData w ln.data
    mkSnapshotNode w1
      { data := d, metadata := some (metadataOf ln), origin := ln.origin,
        parent := some ln.previous, next := some ln.next,
        is_snapshot := some true, history := some hid } hid

/-- add_checkpoint(link): snapshot the supplied node and push a
checkpoint-only entry onto the timeline. -/
def add_checkpoint (w : World) (hid : Nat) (link : Nat) : World :=
  let (w1, snap) := create_snapshot_link w hid link
  w1.setHist hid (fun hh =>
    { hh with timeline := hh.timeline ++ [{ timestamp := w1.time, checkpoint := some snap }] })

/-- The LinkedChain constructor: set the fields, then either share the
supplied history (snapshot case, handled by mkSnapshotNode) or build a fresh
LinkedChainHistory seeded from this node (two snapshots plus the genesis
checkpoint entry), then register the neighbor sets. -/
def mkChain (w : World) (ing : Ingredients) : World × Nat :=
  if ing.is_snapshot.getD false && ing.history.isSome then
    mkSnapshotNode w ing (ing.history.getD 0)
  else
    let hid := w.hists.length
    let (w1, nid) := w.allocNode
      { data := ing.data, previous := ing.parent.getD none, next := ing.next.getD none,
        origin := ing.origin, metadata := ing.metadata,
        is_snapshot := ing.is_snapshot.getD false, hist := hid,
        progeny := [], ancestors := [] }
    let (w2, origNid) := create_snapshot_link w1 hid nid
    let (w3, latestNid) := create_snapshot_link w2 hid nid
    let w4 := w3.pushHist
      { timeline := [], original_state := origNid, latest_state := latestNid,
        saved_checkpoints := [] }
    let w5 := add_checkpoint w4 hid origNid
    (registerNeighbors w5 nid, nid)

/-- add_entry(item) for a LinkedChain item: compute the data delta against
latest_state (only when both the item and latest_state hold data), compute the
metadata delta, and if either is non-empty push one entry and fold both deltas
into latest_state in place. -/
def add_entry (w : World) (hid : Nat) (item : Nat) : World :=
  match w.getHist hid, w.getNode item with
  | some h, some it =>
    match w.getNode h.latest_state with
    | none => w
    | some latest =>
      let data_delta : Option Obj :=
        match it.data, latest.data with
        | some noid, some loid =>
          match w.getObj loid, w.getObj noid with
          | some lo, some no => some (calculate_delta lo no)
          | _, _ => none
        | _, _ => none
      let meta_delta := calculate_metadata_delta (metadataOf latest) (metadataOf it)
      if (match data_delta with | some d => !d.isEmpty | none => false) || !meta_delta.isEmpty then
        let entry : Entry :=
          { timestamp := w.time, data_delta := some (data_delta.getD []),
            metadata_delta := some meta_delta }
        let w1 := w.setHist hid (fun hh => { hh with timeline := hh.timeline ++ [entry] })
        let w2 :=
          match data_delta, latest.data with
          | some d, some loid =>
            match w1.getObj loid with
            | some lo => w1.setObj loid (Obj.assign lo d)
            | none => w1
          | _, _ => w1
        w2.setNode h.latest_state (fun n =>
          match n.metadata with
          | some m => { n with metadata := some (applyMetaDelta m meta_delta) }
          | none => n)
      else w
  | _, _ => w

/-- add_entry(item) for a raw partial payload: always push an entry, fold the
payload into latest_state only when it currently holds data. -/
def add_entry_raw (w : World) (hid : Nat) (item : Obj) : World :=
  match w.getHist hid with
  | none => w
  | some h =>
    let w1 := w.setHist hid (fun hh =>
      { hh with timeline := hh.timeline ++ [{ timestamp := w.time, data_delta := some item }] })
    match (w1.getNode h.latest_state).bind Node.data with
    | some loid =>
      match w1.getObj loid with
      | some lo => w1.setObj loid (Obj.assign lo item)
      | none => w1
    | none => w1

/-- set_next(new_link, record_history): rewrite the next pointer, register the
new neighbor into both sides' sets, optionally record a history entry. -/
def set_next (w : World) (nid : Nat) (new_link : Option Nat) (record_history : Bool) : World :=
  match w.getNode nid with
  | none => w
  | some _ =>
    let w1 := w.setNode nid (fun n => { n with next := new_link })
    let w2 :=
      match new_link with
      | some l =>
        let wa := w1.setNode nid (fun n => { n with progeny := addToSet n.progeny l })
        wa.setNode l (fun n => { n with ancestors := addToSet n.ancestors nid })
      | none => w1
    if record_history then
      match w2.getNode nid with
      | some n2 => add_entry w2 n2.hist nid
      | none => w2
    else w2

/-- set_previous(new_link, record_history): the mirror image of set_next. -/
def set_previous (w : World) (nid : Nat) (new_link : Option Nat) (record_history : Bool) : World :=
  match w.getNode nid with
  | none => w
  | some _ =>
    let w1 := w.setNode nid (fun n => { n with previous := new_link })
    let w2 :=
      match new_link with
      | some l =>
        let wa := w1.setNode nid (fun n => { n with ancestors := addToSet n.ancestors l })
        wa.setNode l (fun n => { n with progeny := addToSet n.progeny nid })
      | none => w1
    if record_history then
      match w2.getNode nid with
      | some n2 => add_entry w2 n2.hist nid
      | none => w2
    else w2

/-- update_metadata(new_metadata): merge field by field (undefined keeps the
existing value) and record a history entry. -/
def update_metadata (w : World) (nid : Nat) (new_metadata : Meta) : World :=
  match w.getNode nid with
  | none => w
  | some n =>
    let w1 := w.setNode nid (fun nn =>
      { nn with metadata := some (mergeMeta new_metadata (metadataOf nn)) })
    add_entry w1 n.hist nid

/-- update(data): the source first calls update_metadata when a metadata field
was supplied (which appends its own history entry), then re-merges the
metadata inline, replaces the data wholesale, re-points next/previous with
history recording suppressed, and finally calls add_entry once more.  The
double add_entry is mirrored exactly as written. -/
def update (w : World) (nid : Nat) (ing : Ingredients) : World :=
  match w.getNode nid with
  | none => w
  | some n0 =>
    let w1 :=
      match ing.metadata with
      | some m => update_metadata w nid m
      | none => w
    let w2 :=
      match ing.metadata with
      | some m => w1.setNode nid (fun nn =>
          { nn with metadata := some (mergeMeta m (metadataOf nn)) })
      | none => w1
    let w3 :=
      match ing.data with
      | some oid => w2.setNode nid (fun nn => { nn with data := some oid })
      | none => w2
    let w4 :=
      match ing.next with
      | some nl => set_next w3 nid nl false
      | none => w3
    let w5 :=
      match ing.parent with
      | some pl => set_previous w4 nid pl false
      | none => w4
    add_entry w5 n0.hist nid

/-- add_link(link): add to the progeny/ancestor sets without touching the
primary pointers, then record the supplied link on this node's history. -/
def add_link (w : World) (a link : Nat) : World :=
  match w.getNode a with
  | none => w
  | some na =>
    let w1 := w.setNode a (fun n => { n with progeny := addToSet n.progeny link })
    let w2 := w1.setNode link (fun n => { n with ancestors := addToSet n.ancestors a })
    add_entry w2 na.hist link

/-- link_next(chain_to_link): splice the supplied node in as the immediate
next neighbor; only the set_next on this records history, plus one entry on
the spliced node's own history when it is a distinct history instance. -/
def link_next (w : World) (a b : Nat) : World :=
  match w.getNode a with
  | none => w
  | some na =>
    let cur_next := na.next
    let w1 := set_previous w b (some a) false
    let w2 := set_next w1 b cur_next false
    let w3 := set_next w2 a (some b) true
    match w3.getNode a, w3.getNode b with
    | some na3, some nb3 => if nb3.hist ≠ na3.hist then add_entry w3 nb3.hist b else w3
    | _, _ => w3

/-- link_previous(chain_to_link): the mirror image of link_next; the displaced
previous neighbor re-points its next with history recording on. -/
def link_previous (w : World) (a b : Nat) : World :=
  match w.getNode a with
  | none => w
  | some na =>
    let cur_prev := na.previous
    let w1 :=
      match cur_prev with
      | some cp => set_next w cp (some b) true
      | none => w
    let w2 := set_previous w1 b cur_prev false
    let w3 := set_next w2 b (some a) false
    let w4 := set_previous w3 a (some b) true
    match w4.getNode a, w4.getNode b with
    | some na4, some nb4 => if nb4.hist ≠ na4.hist then add_entry w4 nb4.hist b else w4
    | _, _ => w4

/-- save_checkpoint(): snapshot latest_state, store it in saved_checkpoints
and push a checkpoint-only entry. -/
def save_checkpoint (w : World) (hid : Nat) : World :=
  match w.getHist hid with
  | none => w
  | some h =>
    let (w1, snap) := create_snapshot_link w hid h.latest_state
    w1.setHist hid (fun hh =>
      { hh with
          saved_checkpoints := hh.saved_checkpoints ++ [snap],
          timeline := hh.timeline ++ [{ timestamp := w1.time, checkpoint := some snap }] })

/-- The index list of a loop for i := s; i < s + c; i++. -/
def loopIdxs (s : Nat) : Nat → List Nat
  | 0 => []
  | c + 1 => s :: loopIdxs (s + 1) c

/-- The backward scan of rebuild_at for the nearest checkpoint entry at or
before the index. -/
def findLastCheckpoint (tl : List Entry) : Nat → Option (Nat × Nat)
  | 0 =>
    match (tl.get? 0).bind Entry.checkpoint with
    | some c => some (0, c)
    | none => none
  | i + 1 =>
    match (tl.get? (i + 1)).bind Entry.checkpoint with
    | some c => some (i + 1, c)
    | none => findLastCheckpoint tl i

/-- One iteration of the replay loop of rebuild_at at timeline position i,
total form: Object.assign the data delta onto the base's payload object and
the metadata delta onto its metadata.  The source raises a TypeError when an
entry carries a data_delta (metadata-only entries carry the truthy empty
object) and the base snapshot holds no payload; this total function extends
that raising case as a no-op, the faithful fallible loop is replayStepE
below, and rebuild_atE_ok proves the two agree on every non-raising run. -/
def replayStep (tl : List Entry) (w : World) (base : Nat) (i : Nat) : World :=
  match tl.get? i with
  | none => w
  | some e =>
    let w1 :=
      match e.data_delta with
      | some d =>
        match (w.getNode base).bind Node.data with
        | some boid =>
          match w.getObj boid with
          | some bo => w.setObj boid (Obj.assign bo d)
          | none => w
        | none => w
      | none => w
    match e.metadata_delta with
    | some md =>
      w1.setNode base (fun n =>
        match n.metadata with
        | some m => { n with metadata := some (applyMetaDelta m md) }
        | none => n)
    | none => w1

/-- rebuild_at(index): validate the bounds, clone the nearest previous
checkpoint (falling back to original_state), then replay every later entry up
to the index onto the clone.  The failure result is none. -/
def rebuild_at (w : World) (hid : Nat) (index : Int) : World × Option Nat :=
  match w.getHist hid with
  | none => (w, none)
  | some h =>
    if index < 0 ∨ (h.timeline.length : Int) ≤ index then (w, none)
    else
      let i := index.toNat
      let (w1, base, jump) :=
        match findLastCheckpoint h.timeline i with
        | some (j, cnid) =>
          let (wa, b) := create_snapshot_link w hid cnid
          (wa, b, j + 1)
        | none =>
          let (wa, b) := create_snapshot_link w hid h.original_state
          (wa, b, 0)
      ((loopIdxs jump (i + 1 - jump)).foldl (fun ww k => replayStep h.timeline ww base k) w1,
        some base)

/-- One iteration of the replay loop of rebuild_at at timeline position i as
the source writes it, with the failure made explicit: when the entry carries a
data_delta (always a truthy object, the empty one for metadata-only entries)
and the base snapshot holds no payload object, Object.assign(undefined, ...)
raises a TypeError, modelled as Except.error. -/
def replayStepE (tl : List Entry) (w : World) (base : Nat) (i : Nat) : Except Unit World :=
  match tl.get? i with
  | none => .ok w
  | some e =>
    match e.data_delta with
    | some d =>
      match (w.getNode base).bind Node.data with
      | some boid =>
        let w1 :=
          match w.getObj boid with
          | some bo => w.setObj boid (Obj.assign bo d)
          | none => w
        .ok (match e.metadata_delta with
             | some md =>
               w1.setNode base (fun n =>
                 match n.metadata with
                 | some m => { n with metadata := some (applyMetaDelta m md) }
                 | none => n)
             | none => w1)
      | none => .error ()
    | none =>
      .ok (match e.metadata_delta with
           | some md =>
             w.setNode base (fun n =>
               match n.metadata with
               | some m => { n with metadata := some (applyMetaDelta m md) }
               | none => n)
           | none => w)

/-- rebuild_at with the replay loop's TypeError made explicit: identical to
rebuild_at except that the loop runs replayStepE, so a raising run produces
Except.error instead of a snapshot. -/
def rebuild_atE (w : World) (hid : Nat) (index : Int) : Except Unit (World × Option Nat) :=
  match w.getHist hid with
  | none => .ok (w, none)
  | some h =>
    if index < 0 ∨ (h.timeline.length : Int) ≤ index then .ok (w, none)
    else
      let i := index.toNat
      let (w1, base, jump) :=
        match findLastCheckpoint h.timeline i with
        | some (j, cnid) =>
          let (wa, b) := create_snapshot_link w hid cnid
          (wa, b, j + 1)
        | none =>
          let (wa, b) := create_snapshot_link w hid h.original_state
          (wa, b, 0)
      ((loopIdxs jump (i + 1 - jump)).foldlM (fun ww k => replayStepE h.timeline ww base k)
        w1).map (fun wf => (wf, some base))

/-- delta_between_points(start, end): the forward union of the data deltas of
the entries strictly after start through end, last write wins; an empty delta
for the backward direction. -/
def delta_between_points (w : World) (hid : Nat) (start e : Int) : Obj :=
  match w.getHist hid with
  | none => []
  | some h =>
    if start < 0 ∨ (h.timeline.length : Int) ≤ e then []
    else if start < e then
      (loopIdxs (start.toNat + 1) (e.toNat - start.toNat)).foldl
        (fun acc i =>
          match h.timeline.get? i with
          | some en =>
            match en.data_delta with
            | some d => Obj.assign acc d
            | none => acc
          | none => acc) []
    else []

/-- revert_to_history(index): on a successful rebuild, copy the reconstructed
data reference and metadata onto this node in place and record the overwrite
as a fresh history entry. -/
def revert_to_history (w : World) (nid : Nat) (index : Int) : World :=
  match w.getNode nid with
  | none => w
  | some n =>
    let (w1, st) := rebuild_at w n.hist index
    match st with
    | none => w1
    | some snid =>
      match w1.getNode snid with
      | none => w1
      | some sn =>
        let w2 := w1.setNode nid (fun nn =>
          { nn with data := sn.data, metadata := some (metadataOf sn) })
        add_entry w2 n.hist nid

/-- branch_from_history(index): rebuild the historical state; on failure the
source throws (modelled as a none result with the world as rebuild left it),
otherwise construct a brand-new node seeded with the reconstructed data
reference and decorated metadata, with origin this.origin() or this, then
record the branch on this node's own history. -/
def branch_from_history (w : World) (nid : Nat) (index : Int) : World × Option Nat :=
  match w.getNode nid with
  | none => (w, none)
  | some n =>
    let (w1, st) := rebuild_at w n.hist index
    match st with
    | none => (w1, none)
    | some snid =>
      match w1.getNode snid with
      | none => (w1, none)
      | some sn =>
        let sm := metadataOf sn
        let titleStr :=
          match sm.title with
          | some s => s
          | none => "undefined"
        let bm : Meta := { sm with title := some (titleStr ++ " (Branch)") }
        let (w2, bnid) := mkChain w1
          { data := sn.data, metadata := some bm, origin := n.origin <|> some nid }
        (add_entry w2 n.hist bnid, some bnid)

/-- The ingredient record branch_from_history builds for the branch node,
factored out for the statements below. -/
def branchIngredients (nid : Nat) (n sn : Node) : Ingredients :=
  let sm := metadataOf sn
  let titleStr :=
    match sm.title with
    | some s => s
    | none => "undefined"
  { data := sn.data, metadata := some { sm with title := some (titleStr ++ " (Branch)") },
    origin := n.origin <|> some nid }

/-- One pointer step of iterate: follow next when dir is true, previous
otherwise. -/
def stepDir (w : World) (dir : Bool) (nid : Nat) : Option Nat :=
  (w.getNode nid).bind (fun n => if dir then n.next else n.previous)

/-- The generator loop of iterate, with explicit fuel: while the current node
is non-null, yield it, step, and break when the walk returns to the exact
starting node. -/
def genFrom (w : World) (dir : Bool) (start : Nat) : Option Nat → Nat → List Nat
  | _, 0 => []
  | none, _ + 1 => []
  | some c, fuel + 1 =>
    if stepDir w dir c = some start then [c]
    else c :: genFrom w dir start (stepDir w dir c) fuel

/-- iterate(direction): the sequence of nodes the generator yields, starting
from the pointer of the starting node (the start itself is not yielded
first). -/
def iterateList (w : World) (dir : Bool) (start : Nat) (fuel : Nat) : List Nat :=
  genFrom w dir start (stepDir w dir start) fuel

/-- The k-th node of the raw pointer walk from start (position zero is the
start itself). -/
def nexts (w : World) (dir : Bool) (start : Nat) : Nat → Option Nat
  | 0 => some start
  | k + 1 => (nexts w dir start k).bind (stepDir w dir)

/-- The pointer walk from position c reaches, after exactly t further steps,
either null or a given target (here always the iteration start). -/
def reachFrom (w : World) (dir : Bool) (c : Nat) : Nat → Option Nat
  | 0 => some c
  | t + 1 =>
    match stepDir w dir c with
    | some c2 => reachFrom w dir c2 t
    | none => none

/-- The loop of iterate, run from the current position cur, stops within d
iterations: either the position is already null, or the step out of the
current node reaches the start (the cycle guard) or a position that itself
stops. -/
def walkStops (w : World) (dir : Bool) (start : Nat) : Option Nat → Nat → Prop
  | none, _ => True
  | some _, 0 => False
  | some c, d + 1 =>
    stepDir w dir c = some start ∨ walkStops w dir start (stepDir w dir c) d

/-- The pointer walk from start reaches null or returns to the start within n
steps (the hypothesis under which the spec calls iterate finite). -/
def stopsWithin (w : World) (dir : Bool) (start : Nat) (n : Nat) : Bool :=
  (List.range n).any (fun k =>
    match nexts w dir start (k + 1) with
    | none => true
    | some x => x == start)

/-- The result of starting from a data value and applying, in timeline order,
the data_delta of every entry of the list (the replay the spec describes). -/
def foldDeltas (o : Obj) (entries : List Entry) : Obj :=
  entries.foldl
    (fun acc e =>
      match e.data_delta with
      | some d => Obj.assign acc d
      | none => acc) o

/-- The segment of c timeline entries starting at index s (the entries a loop
for i := s; i < s + c; i++ visits). -/
def entriesSeg (tl : List Entry) (s c : Nat) : List Entry :=
  (tl.drop s).take c

/-- Every node field except the two cumulative neighbor sets. -/
def Node.core (n : Node) :
    Option Nat × Option Meta × Option Nat × Option Nat × Option Nat × Bool × Nat :=
  (n.data, n.metadata, n.previous, n.next, n.origin, n.is_snapshot, n.hist)

/-- The data value a node observes: follow its data reference into the object
heap. -/
def dataVal (w : World) (nid : Nat) : Option Obj :=
  ((w.getNode nid).bind Node.data).bind (fun oid => w.getObj oid)

/-- Checkpoint coherence of a history whose original data value is origVal:
the snapshot of every checkpoint entry holds exactly the fold of all data
deltas up to and including its own index.  This is the reachability invariant
rebuild_at relies on; it holds at construction and is maintained by add_entry
and save_checkpoint. -/
def cpCoherent (w : World) (h : Hist) (origVal : Obj) : Bool :=
  (List.range h.timeline.length).all (fun j =>
    match (h.timeline.get? j).bind Entry.checkpoint with
    | none => true
    | some cnid =>
      match (w.getNode cnid).bind Node.data with
      | some coid => w.getObj coid == some (foldDeltas origVal (h.timeline.take (j + 1)))
      | none => false)

/-- Every checkpoint of a data-less lineage carries no data, and neither does
the original state (the stable shape of a history whose node was constructed
without a payload). -/
def datalessHist (w : World) (h : Hist) : Bool :=
  (match w.getNode h.original_state with
   | some onode => onode.data == none
   | none => false)
    && h.timeline.all (fun e =>
      match e.checkpoint with
      | none => true
      | some cnid =>
        match w.getNode cnid with
        | some cn => cn.data == none
        | none => false)

/-- Well-formedness of the heap: every id stored in a node or a history is in
range.  Worlds built by the operations are well-formed. -/
def Node.wfIn (w : World) (n : Node) : Bool :=
  (match n.data with
   | some oid => oid < w.objs.length
   | none => true)
  && n.hist < w.hists.length

def Hist.wfIn (w : World) (h : Hist) : Bool :=
  h.original_state < w.nodes.length && h.latest_state < w.nodes.length
    && h.timeline.all (fun e =>
      match e.checkpoint with
      | some c => c < w.nodes.length
      | none => true)

def World.wf (w : World) : Bool :=
  w.nodes.all (Node.wfIn w) && w.hists.all (Hist.wfIn w)

/-- The public mutating operations claim C8 ranges over. -/
inductive Op where
  | opSetNext (nid : Nat) (link : Option Nat) (record : Bool)
  | opSetPrevious (nid : Nat) (link : Option Nat) (record : Bool)
  | opUpdate (nid : Nat) (ing : Ingredients)
  | opLinkNext (a b : Nat)
  | opLinkPrevious (a b : Nat)
  | opAddLink (a link : Nat)
  | opRevertToHistory (nid : Nat) (index : Int)
  | opBranchFromHistory (nid : Nat) (index : Int)
  deriving DecidableEq

def applyOp (w : World) : Op → World
  | Op.opSetNext nid link record => set_next w nid link record
  | Op.opSetPrevious nid link record => set_previous w nid link record
  | Op.opUpdate nid ing => update w nid ing
  | Op.opLinkNext a b => link_next w a b
  | Op.opLinkPrevious a b => link_previous w a b
  | Op.opAddLink a link => add_link w a link
  | Op.opRevertToHistory nid index => revert_to_history w nid index
  | Op.opBranchFromHistory nid index => (branch_from_history w nid index).1

def applyOps (w : World) (ops : List Op) : World :=
  ops.foldl applyOp w

/-- Ancestor/progeny monotonicity between two worlds: every node stays alive
and neither of its two cumulative sets loses a member. -/
def SetsMono (w w' : World) : Prop :=
  ∀ nid n, w.getNode nid = some n →
    ∃ n', w'.getNode nid = some n' ∧
      (∀ x, x ∈ n.ancestors → x ∈ n'.ancestors) ∧
      (∀ x, x ∈ n.progeny → x ∈ n'.progeny)

/-- The history id of a node (this.history()). -/
def histOf (w : World) (nid : Nat) : Nat :=
  ((w.getNode nid).map Node.hist).getD 0

/-- A concrete example lineage used by the witnesses below: a node built with
payload, one field update, a saved checkpoint and another field update. -/
def exW0p : World × Nat :=
  let p := World.empty.allocObj [(0, 0)]
  mkChain p.1 { data := some p.2, metadata := some { title := some "Root" } }

def exN : Nat := exW0p.2

def exW1 : World :=
  let p := exW0p.1.allocObj [(0, 1)]
  update p.1 exN { data := some p.2 }

def exW2 : World := save_checkpoint exW1 (histOf exW1 exN)

def exW3 : World :=
  let p := exW2.allocObj [(0, 2)]
  update p.1 exN { data := some p.2 }

def exH3 : Hist := (exW3.getHist (histOf exW3 exN)).getD {}

def exNode3 : Node := (exW3.getNode exN).getD {}

def exOrigOid : Nat := ((exW3.getNode exH3.original_state).bind Node.data).getD 0

def exOrigVal : Obj := (exW3.getObj exOrigOid).getD []

/-- A concrete three-node cycle used by the iterate witness (node 0 points to
node 4, node 4 to node 8, node 8 back to node 0). -/
def cycW : World :=
  let p0 := mkChain World.empty {}
  let p1 := mkChain p0.1 {}
  let p2 := mkChain p1.1 {}
  let w1 := link_next p2.1 p0.2 p1.2
  let w2 := link_next w1 p1.2 p2.2
  set_next w2 p2.2 (some p0.2) true

/-- Two fresh nodes (ids 0 and 4) used by the link witness. -/
def exLinkW : World := (mkChain (mkChain World.empty {}).1 {}).1

def exLNa : Node := (exLinkW.getNode 0).getD {}

def exLNb : Node := (exLinkW.getNode 4).getD {}

def c2Base : World × Nat :=
  let p := World.empty.allocObj [(0, 0)]
  mkChain p.1 { data := some p.2, metadata := some { title := some "a" } }

def c2After : World :=
  let q := c2Base.1.allocObj [(0, 1)]
  update q.1 c2Base.2 { data := some q.2, metadata := some { title := some "b" } }

def tlLen (w : World) (nid : Nat) : Nat :=
  ((w.getHist (histOf w nid)).getD {}).timeline.length

def c4Branched : World := (branch_from_history exW1 exN 0).1

def c4Payload : World × Nat := c4Branched.allocObj [(0, 1)]

def c4After : World := update c4Payload.1 exN { data := some c4Payload.2 }

def tlLen2 (w : World) (nid : Nat) : Nat :=
  ((w.getHist (histOf w nid)).getD {}).timeline.length

def c4SyncP : World × Nat := exW0p.1.allocObj [(0, 0)]

def c4N : Node := (c4SyncP.1.getNode exN).getD {}

def c4H : Hist := (c4SyncP.1.getHist c4N.hist).getD {}

def c4Latest : Node := (c4SyncP.1.getNode c4H.latest_state).getD {}

def c4Loid : Nat := c4Latest.data.getD 0

def c4Lv : Obj := (c4SyncP.1.getObj c4Loid).getD []

def c10W : World := (mkChain World.empty {}).1

def c10P : World × Nat := c10W.allocObj [(0, 7)]

def c10N : Node := (c10P.1.getNode 0).getD {}

def c10H : Hist := (c10P.1.getHist c10N.hist).getD {}

def c10Latest : Node := (c10P.1.getNode c10H.latest_state).getD {}

def c10dB : World × Nat := mkChain c10W { metadata := some { title := some "x" } }

def c10dW2 : World := add_link c10dB.1 0 c10dB.2

def c10dP : World × Nat := c10dW2.allocObj [(0, 7)]

def c10dW3 : World := update c10dP.1 0 { data := some c10dP.2 }

/-- Data-frame invariant for one update call: relative to the base world w,
the observed node m keeps its data reference and payload object, and the
tracked history hid keeps its latest_state id lid whose node keeps its data
reference latData. -/
def updFrame (w : World) (hid lid m : Nat) (latData : Option Nat) (X : World) : Prop :=
  ((X.getNode m).bind Node.data = (w.getNode m).bind Node.data) ∧
  (∀ moid, (w.getNode m).bind Node.data = some moid → X.getObj moid = w.getObj moid) ∧
  ((X.getHist hid).map Hist.latest_state = some lid) ∧
  ((X.getNode lid).bind Node.data = latData)

def c3N : Node := (exW1.getNode exN).getD {}

def c3R : World × Option Nat := rebuild_at exW1 c3N.hist 0

def c3W1 : World := c3R.1

def c3Sb : Nat := c3R.2.getD 0

def c3Br : World × Option Nat := branch_from_history exW1 exN 0

def c3Wp : World := c3Br.1

def c3B : Nat := c3Br.2.getD 0

def c3Sn : Node := (c3W1.getNode c3Sb).getD {}

def c3Hy1 : Hist := (c3W1.getHist c3N.hist).getD {}

def c3Lat1 : Node := (c3W1.getNode c3Hy1.latest_state).getD {}

def c3Np : Node := (c3Wp.getNode exN).getD {}

def c3LidA : Nat := ((c3Wp.getHist c3Np.hist).map Hist.latest_state).getD 999

def c3Bn : Node := (c3Wp.getNode c3B).getD {}

def c3LidB : Nat := ((c3Wp.getHist c3Bn.hist).map Hist.latest_state).getD 999

/-! ### Heap primitives: read/write commutation -/

theorem getNode_setNode (w : World) (i : Nat) (f : Node → Node) (m : Nat) :
    (w.setNode i f).getNode m =
      if i = m then (w.getNode m).map f else w.getNode m := by
  unfold World.setNode
  cases hw : w.nodes[i]? with
  | none =>
    by_cases him : i = m
    · subst him
      simp [World.getNode, hw]
    · simp [him]
  | some n =>
    show World.getNode { w with nodes := w.nodes.set i (f n) } m = _
    by_cases him : i = m
    · subst him
      rw [if_pos rfl]
      show (w.nodes.set i (f n))[i]? = Option.map f (World.getNode w i)
      rw [List.getElem?_set_self']
      show Option.map (Function.const Node (f n)) w.nodes[i]? = _
      rw [hw, show World.getNode w i = w.nodes[i]? from rfl, hw]
      rfl
    · rw [if_neg him]
      show (w.nodes.set i (f n))[m]? = w.nodes[m]?
      exact List.getElem?_set_ne him

theorem getObj_setObj (w : World) (i : Nat) (o : Obj) (m : Nat) :
    (w.setObj i o).getObj m =
      if i = m then (w.getObj m).map (fun _ => o) else w.getObj m := by
  unfold World.setObj World.getObj
  by_cases him : i = m
  · subst him
    rw [if_pos rfl, List.getElem?_set_self']
    cases w.objs[i]? <;> rfl
  · rw [if_neg him]
    exact List.getElem?_set_ne him

theorem getHist_setHist (w : World) (i : Nat) (f : Hist → Hist) (m : Nat) :
    (w.setHist i f).getHist m =
      if i = m then (w.getHist m).map f else w.getHist m := by
  unfold World.setHist
  cases hw : w.hists[i]? with
  | none =>
    by_cases him : i = m
    · subst him
      simp [World.getHist, hw]
    · simp [him]
  | some h =>
    show World.getHist { w with hists := w.hists.set i (f h) } m = _
    by_cases him : i = m
    · subst him
      rw [if_pos rfl]
      show (w.hists.set i (f h))[i]? = Option.map f (World.getHist w i)
      rw [List.getElem?_set_self']
      show Option.map (Function.const Hist (f h)) w.hists[i]? = _
      rw [hw, show World.getHist w i = w.hists[i]? from rfl, hw]
      rfl
    · rw [if_neg him]
      show (w.hists.set i (f h))[m]? = w.hists[m]?
      exact List.getElem?_set_ne him

theorem objs_setNode (w : World) (i : Nat) (f : Node → Node) :
    (w.setNode i f).objs = w.objs := by
  unfold World.setNode
  cases w.nodes[i]? <;> rfl

theorem hists_setNode (w : World) (i : Nat) (f : Node → Node) :
    (w.setNode i f).hists = w.hists := by
  unfold World.setNode
  cases w.nodes[i]? <;> rfl

theorem nodes_setObj (w : World) (i : Nat) (o : Obj) :
    (w.setObj i o).nodes = w.nodes := rfl

theorem hists_setObj (w : World) (i : Nat) (o : Obj) :
    (w.setObj i o).hists = w.hists := rfl

theorem nodes_setHist (w : World) (i : Nat) (f : Hist → Hist) :
    (w.setHist i f).nodes = w.nodes := by
  unfold World.setHist
  cases w.hists[i]? <;> rfl

theorem objs_setHist (w : World) (i : Nat) (f : Hist → Hist) :
    (w.setHist i f).objs = w.objs := by
  unfold World.setHist
  cases w.hists[i]? <;> rfl

theorem nodesLength_setNode (w : World) (i : Nat) (f : Node → Node) :
    (w.setNode i f).nodes.length = w.nodes.length := by
  unfold World.setNode
  cases w.nodes[i]? <;> simp

theorem getNode_allocNode (w : World) (n : Node) (m : Nat) :
    (w.allocNode n).1.getNode m =
      if m = w.nodes.length then some n else w.getNode m := by
  unfold World.allocNode World.getNode
  by_cases hm : m = w.nodes.length
  · subst hm
    simp [List.getElem?_concat_length]
  · rcases Nat.lt_or_ge m w.nodes.length with hlt | hge
    · simp [hm, List.getElem?_append_left hlt]
    · simp only [hm, if_false]
      rw [List.getElem?_eq_none (by simp; omega), List.getElem?_eq_none (by omega)]

theorem getObj_allocObj (w : World) (o : Obj) (m : Nat) :
    (w.allocObj o).1.getObj m =
      if m = w.objs.length then some o else w.getObj m := by
  unfold World.allocObj World.getObj
  by_cases hm : m = w.objs.length
  · subst hm
    simp [List.getElem?_concat_length]
  · rcases Nat.lt_or_ge m w.objs.length with hlt | hge
    · simp [hm, List.getElem?_append_left hlt]
    · simp only [hm, if_false]
      rw [List.getElem?_eq_none (by simp; omega), List.getElem?_eq_none (by omega)]

theorem getNode_lt_length (w : World) (nid : Nat) (n : Node) (h : w.getNode nid = some n) :
    nid < w.nodes.length := by
  by_contra hge
  rw [World.getNode, List.getElem?_eq_none (by omega)] at h
  exact Option.noConfusion h

theorem getObj_lt_length (w : World) (oid : Nat) (o : Obj) (h : w.getObj oid = some o) :
    oid < w.objs.length := by
  by_contra hge
  rw [World.getObj, List.getElem?_eq_none (by omega)] at h
  exact Option.noConfusion h

theorem getHist_lt_length (w : World) (hid : Nat) (h : Hist) (hh : w.getHist hid = some h) :
    hid < w.hists.length := by
  by_contra hge
  rw [World.getHist, List.getElem?_eq_none (by omega)] at hh
  exact Option.noConfusion hh

/-! ### Loop segments and delta folds -/

theorem getNode_map_setNode (w : World) (i : Nat) (f : Node → Node) (m : Nat)
    {γ : Type} (π : Node → γ) (hf : ∀ n, π (f n) = π n) :
    ((w.setNode i f).getNode m).map π = (w.getNode m).map π := by
  rw [getNode_setNode]
  split
  · rw [Option.map_map]
    cases w.getNode m with
    | none => rfl
    | some n =>
      show some (π (f n)) = some (π n)
      rw [hf]
  · rfl

theorem entriesSeg_zero (tl : List Entry) (s : Nat) : entriesSeg tl s 0 = [] := by
  simp [entriesSeg]

theorem entriesSeg_succ (tl : List Entry) (s c : Nat) (hs : s < tl.length) :
    entriesSeg tl s (c + 1) = tl.get ⟨s, hs⟩ :: entriesSeg tl (s + 1) c := by
  unfold entriesSeg
  rw [List.drop_eq_get_cons hs]
  rfl

theorem foldl_loopIdxs_entries {β : Type} (tl : List Entry) (g : β → Entry → β) :
    ∀ (c s : Nat), s + c ≤ tl.length → ∀ (init : β),
      (loopIdxs s c).foldl
        (fun acc i =>
          match tl.get? i with
          | some en => g acc en
          | none => acc) init
      = (entriesSeg tl s c).foldl g init := by
  intro c
  induction c with
  | zero =>
    intro s h init
    rfl
  | succ c ih =>
    intro s h init
    have hs : s < tl.length := by omega
    rw [show loopIdxs s (c + 1) = s :: loopIdxs (s + 1) c from rfl]
    rw [entriesSeg_succ tl s c hs]
    simp only [List.foldl_cons]
    rw [List.get?_eq_get hs]
    exact ih (s + 1) (by omega) (g init (tl.get ⟨s, hs⟩))

theorem foldDeltas_append (o : Obj) (l1 l2 : List Entry) :
    foldDeltas o (l1 ++ l2) = foldDeltas (foldDeltas o l1) l2 :=
  List.foldl_append _ _ _ _

theorem take_decomp (tl : List Entry) (j i : Nat) (hj : j ≤ i) :
    tl.take (i + 1) = tl.take (j + 1) ++ entriesSeg tl (j + 1) (i - j) := by
  unfold entriesSeg
  have hsum : i + 1 = (j + 1) + (i - j) := by omega
  rw [hsum, List.take_add]

theorem findLastCheckpoint_some (tl : List Entry) :
    ∀ (i j c : Nat), findLastCheckpoint tl i = some (j, c) →
      j ≤ i ∧ (tl.get? j).bind Entry.checkpoint = some c := by
  intro i
  induction i with
  | zero =>
    intro j c h
    unfold findLastCheckpoint at h
    split at h
    · rename_i c0 hc
      injection h with h2
      injection h2 with hj hcc
      subst hj; subst hcc
      exact ⟨Nat.le_refl 0, hc⟩
    · exact absurd h (by simp)
  | succ i ih =>
    intro j c h
    unfold findLastCheckpoint at h
    split at h
    · rename_i c0 hc
      injection h with h2
      injection h2 with hj hcc
      subst hj; subst hcc
      exact ⟨Nat.le_refl _, hc⟩
    · obtain ⟨h1, h2⟩ := ih j c h
      exact ⟨Nat.le_succ_of_le h1, h2⟩

/-! ### Frame lemmas for the heap writers -/

theorem getObj_setNode (w : World) (i : Nat) (f : Node → Node) (m : Nat) :
    (w.setNode i f).getObj m = w.getObj m := by
  unfold World.getObj
  rw [objs_setNode]

theorem getNode_setObj (w : World) (i : Nat) (o : Obj) (m : Nat) :
    (w.setObj i o).getNode m = w.getNode m := rfl

theorem getHist_setNode (w : World) (i : Nat) (f : Node → Node) (m : Nat) :
    (w.setNode i f).getHist m = w.getHist m := by
  unfold World.getHist
  rw [hists_setNode]

theorem getHist_setObj (w : World) (i : Nat) (o : Obj) (m : Nat) :
    (w.setObj i o).getHist m = w.getHist m := rfl

theorem getNode_setHist (w : World) (i : Nat) (f : Hist → Hist) (m : Nat) :
    (w.setHist i f).getNode m = w.getNode m := by
  unfold World.getNode
  rw [nodes_setHist]

theorem getObj_setHist (w : World) (i : Nat) (f : Hist → Hist) (m : Nat) :
    (w.setHist i f).getObj m = w.getObj m := by
  unfold World.getObj
  rw [objs_setHist]

theorem bind_data_setNode (w : World) (i : Nat) (f : Node → Node) (m : Nat)
    (hf : ∀ n, (f n).data = n.data) :
    ((w.setNode i f).getNode m).bind Node.data = (w.getNode m).bind Node.data := by
  rw [getNode_setNode]
  split
  · cases w.getNode m with
    | none => rfl
    | some n =>
      show (f n).data = n.data
      exact hf n
  · rfl

theorem objs_registerPrev (w : World) (nid : Nat) :
    (registerPrev w nid).objs = w.objs := by
  unfold registerPrev
  cases (w.getNode nid).bind Node.previous with
  | none => rfl
  | some p => rw [objs_setNode, objs_setNode]

theorem objs_registerNext (w : World) (nid : Nat) :
    (registerNext w nid).objs = w.objs := by
  unfold registerNext
  cases (w.getNode nid).bind Node.next with
  | none => rfl
  | some nx => rw [objs_setNode, objs_setNode]

theorem objs_registerNeighbors (w : World) (nid : Nat) :
    (registerNeighbors w nid).objs = w.objs := by
  unfold registerNeighbors
  rw [objs_registerNext, objs_registerPrev]

theorem hists_registerPrev (w : World) (nid : Nat) :
    (registerPrev w nid).hists = w.hists := by
  unfold registerPrev
  cases (w.getNode nid).bind Node.previous with
  | none => rfl
  | some p => rw [hists_setNode, hists_setNode]

theorem hists_registerNext (w : World) (nid : Nat) :
    (registerNext w nid).hists = w.hists := by
  unfold registerNext
  cases (w.getNode nid).bind Node.next with
  | none => rfl
  | some nx => rw [hists_setNode, hists_setNode]

theorem hists_registerNeighbors (w : World) (nid : Nat) :
    (registerNeighbors w nid).hists = w.hists := by
  unfold registerNeighbors
  rw [hists_registerNext, hists_registerPrev]

theorem getNode_map_registerPrev (w : World) (nid m : Nat) {γ : Type} (π : Node → γ)
    (hπ : ∀ n a p, π { n with ancestors := a, progeny := p } = π n) :
    ((registerPrev w nid).getNode m).map π = (w.getNode m).map π := by
  unfold registerPrev
  cases (w.getNode nid).bind Node.previous with
  | none => rfl
  | some p =>
    rw [getNode_map_setNode _ _ _ _ π (fun n => hπ n n.ancestors (addToSet n.progeny nid)),
      getNode_map_setNode _ _ _ _ π (fun n => hπ n (addToSet n.ancestors p) n.progeny)]

theorem getNode_map_registerNext (w : World) (nid m : Nat) {γ : Type} (π : Node → γ)
    (hπ : ∀ n a p, π { n with ancestors := a, progeny := p } = π n) :
    ((registerNext w nid).getNode m).map π = (w.getNode m).map π := by
  unfold registerNext
  cases (w.getNode nid).bind Node.next with
  | none => rfl
  | some nx =>
    rw [getNode_map_setNode _ _ _ _ π (fun n => hπ n (addToSet n.ancestors nid) n.progeny),
      getNode_map_setNode _ _ _ _ π (fun n => hπ n n.ancestors (addToSet n.progeny nx))]

theorem getNode_map_registerNeighbors (w : World) (nid m : Nat) {γ : Type} (π : Node → γ)
    (hπ : ∀ n a p, π { n with ancestors := a, progeny := p } = π n) :
    ((registerNeighbors w nid).getNode m).map π = (w.getNode m).map π := by
  unfold registerNeighbors
  rw [getNode_map_registerNext _ _ _ π hπ, getNode_map_registerPrev _ _ _ π hπ]

theorem nodesLength_registerPrev (w : World) (nid : Nat) :
    (registerPrev w nid).nodes.length = w.nodes.length := by
  unfold registerPrev
  cases (w.getNode nid).bind Node.previous with
  | none => rfl
  | some p => rw [nodesLength_setNode, nodesLength_setNode]

theorem nodesLength_registerNext (w : World) (nid : Nat) :
    (registerNext w nid).nodes.length = w.nodes.length := by
  unfold registerNext
  cases (w.getNode nid).bind Node.next with
  | none => rfl
  | some nx => rw [nodesLength_setNode, nodesLength_setNode]

theorem nodesLength_registerNeighbors (w : World) (nid : Nat) :
    (registerNeighbors w nid).nodes.length = w.nodes.length := by
  unfold registerNeighbors
  rw [nodesLength_registerNext, nodesLength_registerPrev]


theorem bind_data_eq_map_getD (o : Option Node) :
    o.bind Node.data = (o.map Node.data).getD none := by
  cases o <;> rfl

theorem getObj_registerNeighbors (w : World) (nid m : Nat) :
    (registerNeighbors w nid).getObj m = w.getObj m := by
  unfold World.getObj
  rw [objs_registerNeighbors]

theorem getHist_registerNeighbors (w : World) (nid m : Nat) :
    (registerNeighbors w nid).getHist m = w.getHist m := by
  unfold World.getHist
  rw [hists_registerNeighbors]

theorem bind_data_registerNeighbors (w : World) (nid m : Nat) :
    ((registerNeighbors w nid).getNode m).bind Node.data
      = ((w.getNode m)).bind Node.data := by
  rw [bind_data_eq_map_getD, bind_data_eq_map_getD,
    getNode_map_registerNeighbors w nid m Node.data (fun n a p => rfl)]

theorem getNode_allocNode_self (w : World) (n : Node) :
    (w.allocNode n).1.getNode (w.allocNode n).2 = some n := by
  unfold World.allocNode World.getNode
  exact List.getElem?_concat_length _ _

theorem getObj_allocObj_self (w : World) (o : Obj) :
    (w.allocObj o).1.getObj (w.allocObj o).2 = some o := by
  unfold World.allocObj World.getObj
  exact List.getElem?_concat_length _ _

theorem create_snapshot_link_spec (w : World) (hid src : Nat) (sn : Node) (soid : Nat) (v : Obj)
    (hsrc : w.getNode src = some sn) (hd : sn.data = some soid) (hv : w.getObj soid = some v) :
    (create_snapshot_link w hid src).2 = w.nodes.length ∧
    ((create_snapshot_link w hid src).1.getNode (create_snapshot_link w hid src).2).bind Node.data
      = some w.objs.length ∧
    (create_snapshot_link w hid src).1.getObj w.objs.length = some v := by
  unfold create_snapshot_link cloneData mkSnapshotNode
  simp only [hsrc, hd, hv]
  refine ⟨rfl, ?_, ?_⟩
  · rw [bind_data_registerNeighbors, getNode_allocNode_self]
    rfl
  · rw [getObj_registerNeighbors]
    show (World.allocObj w v).1.getObj w.objs.length = some v
    exact getObj_allocObj_self w v


theorem replayStep_facts (tl : List Entry) (w : World) (base boid : Nat) (v : Obj) (k : Nat)
    (e : Entry) (he : tl.get? k = some e)
    (hb : (w.getNode base).bind Node.data = some boid)
    (hv : w.getObj boid = some v) :
    ((replayStep tl w base k).getNode base).bind Node.data = some boid ∧
    (replayStep tl w base k).getObj boid
      = some (match e.data_delta with
              | some d => Obj.assign v d
              | none => v) := by
  unfold replayStep
  simp only [he]
  cases hd : e.data_delta with
  | none =>
    cases hm : e.metadata_delta with
    | none => exact ⟨hb, hv⟩
    | some md =>
      constructor
      · rw [bind_data_setNode]
        · exact hb
        · intro n
          cases n.metadata <;> rfl
      · rw [getObj_setNode]
        exact hv
  | some d =>
    simp only [hb, hv]
    cases hm : e.metadata_delta with
    | none =>
      constructor
      · rw [show ((w.setObj boid (Obj.assign v d)).getNode base) = w.getNode base from rfl]
        exact hb
      · rw [getObj_setObj, if_pos rfl, hv]
        rfl
    | some md =>
      constructor
      · rw [bind_data_setNode]
        · rw [show ((w.setObj boid (Obj.assign v d)).getNode base) = w.getNode base from rfl]
          exact hb
        · intro n
          cases n.metadata <;> rfl
      · rw [getObj_setNode, getObj_setObj, if_pos rfl, hv]
        rfl

theorem replay_loop (tl : List Entry) :
    ∀ (c s : Nat), s + c ≤ tl.length → ∀ (w : World) (base boid : Nat) (v : Obj),
      (w.getNode base).bind Node.data = some boid →
      w.getObj boid = some v →
      (((loopIdxs s c).foldl (fun ww k => replayStep tl ww base k) w).getNode base).bind
          Node.data = some boid ∧
      ((loopIdxs s c).foldl (fun ww k => replayStep tl ww base k) w).getObj boid
        = some (foldDeltas v (entriesSeg tl s c)) := by
  intro c
  induction c with
  | zero =>
    intro s hlen w base boid v hb hv
    exact ⟨hb, hv⟩
  | succ c ih =>
    intro s hlen w base boid v hb hv
    have hs : s < tl.length := by omega
    have he : tl.get? s = some (tl.get ⟨s, hs⟩) := List.get?_eq_get hs
    obtain ⟨hb1, hv1⟩ := replayStep_facts tl w base boid v s (tl.get ⟨s, hs⟩) he hb hv
    rw [show loopIdxs s (c + 1) = s :: loopIdxs (s + 1) c from rfl]
    simp only [List.foldl_cons]
    rw [entriesSeg_succ tl s c hs]
    exact ih (s + 1) (by omega) (replayStep tl w base s) base boid _ hb1 hv1

/-! ### Claim C1: rebuild_at reconstruction correctness -/

theorem cpCoherent_extract (w : World) (h : Hist) (origVal : Obj)
    (hc : cpCoherent w h origVal = true) (j cnid : Nat)
    (hj : (h.timeline.get? j).bind Entry.checkpoint = some cnid) :
    ∃ coid, (w.getNode cnid).bind Node.data = some coid ∧
      w.getObj coid = some (foldDeltas origVal (h.timeline.take (j + 1))) := by
  have hjlen : j < h.timeline.length := by
    by_contra hge
    rw [List.get?_len_le (by omega)] at hj
    exact Option.noConfusion hj
  unfold cpCoherent at hc
  rw [List.all_eq_true] at hc
  have hcj := hc j (by rw [List.mem_range]; exact hjlen)
  simp only [hj] at hcj
  cases hnd : (w.getNode cnid).bind Node.data with
  | none =>
    simp only [hnd] at hcj
    exact Bool.noConfusion hcj
  | some coid =>
    simp only [hnd] at hcj
    exact ⟨coid, rfl, eq_of_beq hcj⟩

/-- Claim C1: for every history satisfying the checkpoint-coherence
reachability invariant and every in-bounds index i, rebuild_at returns a
snapshot node whose data value equals the result of starting from the
original state's data value and applying, in timeline order, the data_delta
of every entry in the first i+1 timeline entries; and the replay outcome is
the same for every checkpoint entry at or before i that could serve as the
replay base (checkpoint choice is not observable). -/
theorem rebuild_at_replays_deltas (w : World) (hid : Nat) (h : Hist) (i : Int)
    (hh : w.getHist hid = some h)
    (h0 : 0 ≤ i) (hlen : i < (h.timeline.length : Int))
    (origOid : Nat) (origVal : Obj)
    (hod : (w.getNode h.original_state).bind Node.data = some origOid)
    (hov : w.getObj origOid = some origVal)
    (hcp : cpCoherent w h origVal = true) :
    (∃ nid oid, (rebuild_at w hid i).2 = some nid ∧
      ((rebuild_at w hid i).1.getNode nid).bind Node.data = some oid ∧
      (rebuild_at w hid i).1.getObj oid
        = some (foldDeltas origVal (h.timeline.take (i.toNat + 1))))
    ∧ (∀ (j cnid coid : Nat) (cval : Obj), j ≤ i.toNat →
        (h.timeline.get? j).bind Entry.checkpoint = some cnid →
        (w.getNode cnid).bind Node.data = some coid →
        w.getObj coid = some cval →
        foldDeltas cval (entriesSeg h.timeline (j + 1) (i.toNat - j))
          = foldDeltas origVal (h.timeline.take (i.toNat + 1))) := by
  constructor
  · cases hf : findLastCheckpoint h.timeline i.toNat with
    | some jc =>
      obtain ⟨j, cnid⟩ := jc
      obtain ⟨hj_le, hj_cp⟩ := findLastCheckpoint_some h.timeline i.toNat j cnid hf
      obtain ⟨coid, hbind, hcv⟩ := cpCoherent_extract w h origVal hcp j cnid hj_cp
      cases hcn : w.getNode cnid with
      | none =>
        rw [hcn] at hbind
        exact Option.noConfusion hbind
      | some cn =>
        rw [hcn] at hbind
        have hcnd : cn.data = some coid := hbind
        obtain ⟨hsnd, hbdata, hbval⟩ :=
          create_snapshot_link_spec w hid cnid cn coid _ hcn hcnd hcv
        have hred : rebuild_at w hid i =
            ((loopIdxs (j + 1) (i.toNat + 1 - (j + 1))).foldl
                (fun ww k => replayStep h.timeline ww (create_snapshot_link w hid cnid).2 k)
                (create_snapshot_link w hid cnid).1,
              some (create_snapshot_link w hid cnid).2) := by
          unfold rebuild_at
          simp only [hh, hf]
          rw [if_neg (by omega)]
        obtain ⟨hrb, hrv⟩ := replay_loop h.timeline (i.toNat + 1 - (j + 1)) (j + 1)
          (by omega) (create_snapshot_link w hid cnid).1
          (create_snapshot_link w hid cnid).2 w.objs.length _ hbdata hbval
        refine ⟨(create_snapshot_link w hid cnid).2, w.objs.length, ?_, ?_, ?_⟩
        · rw [hred]
        · rw [hred]
          exact hrb
        · rw [hred]
          show ((loopIdxs (j + 1) (i.toNat + 1 - (j + 1))).foldl
              (fun ww k => replayStep h.timeline ww (create_snapshot_link w hid cnid).2 k)
              (create_snapshot_link w hid cnid).1).getObj w.objs.length = _
          rw [hrv]
          have hseg : i.toNat + 1 - (j + 1) = i.toNat - j := by omega
          rw [hseg, take_decomp h.timeline j i.toNat hj_le, foldDeltas_append]
    | none =>
      cases hon : w.getNode h.original_state with
      | none =>
        rw [hon] at hod
        exact Option.noConfusion hod
      | some onode =>
        rw [hon] at hod
        have hond : onode.data = some origOid := hod
        obtain ⟨hsnd, hbdata, hbval⟩ :=
          create_snapshot_link_spec w hid h.original_state onode origOid origVal hon hond hov
        have hred : rebuild_at w hid i =
            ((loopIdxs 0 (i.toNat + 1 - 0)).foldl
                (fun ww k =>
                  replayStep h.timeline ww (create_snapshot_link w hid h.original_state).2 k)
                (create_snapshot_link w hid h.original_state).1,
              some (create_snapshot_link w hid h.original_state).2) := by
          unfold rebuild_at
          simp only [hh, hf]
          rw [if_neg (by omega)]
        obtain ⟨hrb, hrv⟩ := replay_loop h.timeline (i.toNat + 1 - 0) 0
          (by omega) (create_snapshot_link w hid h.original_state).1
          (create_snapshot_link w hid h.original_state).2 w.objs.length _ hbdata hbval
        refine ⟨(create_snapshot_link w hid h.original_state).2, w.objs.length, ?_, ?_, ?_⟩
        · rw [hred]
        · rw [hred]
          exact hrb
        · rw [hred]
          exact hrv
  · intro j cnid coid cval hjle hcpj hnd hv
    obtain ⟨coid2, hnd2, hv2⟩ := cpCoherent_extract w h origVal hcp j cnid hcpj
    rw [hnd] at hnd2
    have hco : coid2 = coid := by
      injection hnd2.symm
    subst hco
    rw [hv] at hv2
    have hcval : cval = foldDeltas origVal (h.timeline.take (j + 1)) := by
      injection hv2
    rw [take_decomp h.timeline j i.toNat hjle, foldDeltas_append, hcval]

/-- Witness for claim C1 on the concrete example lineage at index 3 (the
timeline holds the genesis checkpoint, a delta, a saved checkpoint and a
second delta). -/
theorem rebuild_at_replays_deltas_witness :
    (∃ nid oid, (rebuild_at exW3 (histOf exW3 exN) 3).2 = some nid ∧
      ((rebuild_at exW3 (histOf exW3 exN) 3).1.getNode nid).bind Node.data = some oid ∧
      (rebuild_at exW3 (histOf exW3 exN) 3).1.getObj oid
        = some (foldDeltas exOrigVal (exH3.timeline.take ((3 : Int).toNat + 1))))
    ∧ (∀ (j cnid coid : Nat) (cval : Obj), j ≤ (3 : Int).toNat →
        (exH3.timeline.get? j).bind Entry.checkpoint = some cnid →
        (exW3.getNode cnid).bind Node.data = some coid →
        exW3.getObj coid = some cval →
        foldDeltas cval (entriesSeg exH3.timeline (j + 1) ((3 : Int).toNat - j))
          = foldDeltas exOrigVal (exH3.timeline.take ((3 : Int).toNat + 1))) :=
  rebuild_at_replays_deltas exW3 (histOf exW3 exN) exH3 3 (by rfl) (by decide) (by decide)
    exOrigOid exOrigVal (by rfl) (by rfl) (by rfl)


/-! ### Claim C9: iterate termination and cycle guard -/

theorem reachFrom_succ (w : World) (dir : Bool) :
    ∀ (t : Nat) (c : Nat),
      reachFrom w dir c (t + 1) = (reachFrom w dir c t).bind (stepDir w dir) := by
  intro t
  induction t with
  | zero =>
    intro c
    show (match stepDir w dir c with
          | some c2 => reachFrom w dir c2 0
          | none => none) = stepDir w dir c
    cases stepDir w dir c <;> rfl
  | succ t ih =>
    intro c
    rw [show reachFrom w dir c (t + 1 + 1)
        = (match stepDir w dir c with
           | some c2 => reachFrom w dir c2 (t + 1)
           | none => none) from rfl,
      show reachFrom w dir c (t + 1)
        = (match stepDir w dir c with
           | some c2 => reachFrom w dir c2 t
           | none => none) from rfl]
    cases hs : stepDir w dir c with
    | none => rfl
    | some c2 => exact ih c2

theorem nexts_eq_reachFrom (w : World) (dir : Bool) (start : Nat) :
    ∀ (k : Nat), nexts w dir start k = reachFrom w dir start k := by
  intro k
  induction k with
  | zero => rfl
  | succ k ih =>
    show (nexts w dir start k).bind (stepDir w dir) = _
    rw [ih, ← reachFrom_succ]

theorem walkStops_of_hit (w : World) (dir : Bool) (start : Nat) :
    ∀ (d : Nat) (c : Nat) (t : Nat), 1 ≤ t → t ≤ d →
      (reachFrom w dir c t = none ∨ reachFrom w dir c t = some start) →
      walkStops w dir start (some c) d := by
  intro d
  induction d with
  | zero =>
    intro c t h1 h2 _
    omega
  | succ d ih =>
    intro c t h1 h2 hhit
    simp only [walkStops]
    cases hsc : stepDir w dir c with
    | none =>
      right
      simp only [walkStops]
    | some c2 =>
      by_cases hc2 : c2 = start
      · left
        rw [hc2]
      · right
        obtain ⟨t1, rfl⟩ : ∃ t1, t = t1 + 1 := ⟨t - 1, by omega⟩
        rw [show reachFrom w dir c (t1 + 1)
            = (match stepDir w dir c with
               | some x => reachFrom w dir x t1
               | none => none) from rfl, hsc] at hhit
        match t1, hhit with
        | 0, hhit =>
          cases hhit with
          | inl hx => exact Option.noConfusion hx
          | inr hx =>
            exact absurd (Option.some.inj hx) hc2
        | t1 + 1, hhit =>
          exact ih c2 (t1 + 1) (by omega) (by omega) hhit

theorem genFrom_stable (w : World) (dir : Bool) (start : Nat) :
    ∀ (d : Nat) (cur : Option Nat), walkStops w dir start cur d →
      ∀ fuel, d ≤ fuel → genFrom w dir start cur fuel = genFrom w dir start cur d := by
  intro d
  induction d with
  | zero =>
    intro cur hws fuel hf
    cases cur with
    | none => cases fuel <;> rfl
    | some c =>
      simp only [walkStops] at hws
  | succ d ih =>
    intro cur hws fuel hf
    cases cur with
    | none => cases fuel <;> rfl
    | some c =>
      obtain ⟨f, rfl⟩ : ∃ f, fuel = f + 1 := ⟨fuel - 1, by omega⟩
      simp only [walkStops] at hws
      by_cases hst : stepDir w dir c = some start
      · show (if stepDir w dir c = some start then [c]
              else c :: genFrom w dir start (stepDir w dir c) f)
            = (if stepDir w dir c = some start then [c]
              else c :: genFrom w dir start (stepDir w dir c) d)
        rw [if_pos hst, if_pos hst]
      · show (if stepDir w dir c = some start then [c]
              else c :: genFrom w dir start (stepDir w dir c) f)
            = (if stepDir w dir c = some start then [c]
              else c :: genFrom w dir start (stepDir w dir c) d)
        rw [if_neg hst, if_neg hst]
        have hws2 : walkStops w dir start (stepDir w dir c) d := by
          cases hws with
          | inl hx => exact absurd hx hst
          | inr hx => exact hx
        rw [ih (stepDir w dir c) hws2 f (by omega)]

theorem genFrom_count (w : World) (dir : Bool) (start : Nat) :
    ∀ (fuel : Nat) (cur : Option Nat),
      (genFrom w dir start cur fuel).count start
        ≤ (if cur = some start then 1 else 0) := by
  intro fuel
  induction fuel with
  | zero =>
    intro cur
    cases cur with
    | none => simp [genFrom]
    | some c => simp [genFrom]
  | succ fuel ih =>
    intro cur
    cases cur with
    | none => simp [genFrom]
    | some c =>
      by_cases hst : stepDir w dir c = some start
      · show (if stepDir w dir c = some start then [c]
              else c :: genFrom w dir start (stepDir w dir c) fuel).count start ≤ _
        rw [if_pos hst]
        by_cases hc : c = start
        · subst hc
          simp
        · simp [List.count_singleton, hc]
      · show (if stepDir w dir c = some start then [c]
              else c :: genFrom w dir start (stepDir w dir c) fuel).count start ≤ _
        rw [if_neg hst]
        have hrec := ih (stepDir w dir c)
        rw [if_neg hst] at hrec
        by_cases hc : c = start
        · subst hc
          simp only [List.count_cons]
          simp
          omega
        · simp only [List.count_cons]
          simp [hc]
          omega


/-- Claim C9: for every node whose pointer chain in the given direction
reaches null or returns to the starting node within n steps, iterate yields a
finite sequence: with any fuel of at least n the generator produces one and
the same list, self-terminating at the point where the walk would revisit the
start, and the start is never yielded a second time. -/
theorem iterate_self_terminates (w : World) (dir : Bool) (start n : Nat)
    (hstop : stopsWithin w dir start n = true) :
    (∀ fuel, n ≤ fuel → iterateList w dir start fuel = iterateList w dir start n)
    ∧ (iterateList w dir start n).count start ≤ 1 := by
  have hex : ∃ k, k < n ∧ (reachFrom w dir start (k + 1) = none
      ∨ reachFrom w dir start (k + 1) = some start) := by
    unfold stopsWithin at hstop
    rw [List.any_eq_true] at hstop
    obtain ⟨k, hk, hp⟩ := hstop
    rw [List.mem_range] at hk
    refine ⟨k, hk, ?_⟩
    rw [← nexts_eq_reachFrom]
    cases hnk : nexts w dir start (k + 1) with
    | none => left; rfl
    | some x =>
      right
      simp only [hnk] at hp
      rw [eq_of_beq hp]
  obtain ⟨k, hkn, hhit⟩ := hex
  have hws : walkStops w dir start (stepDir w dir start) n := by
    cases hs1 : stepDir w dir start with
    | none => simp only [walkStops]
    | some c =>
      rw [show reachFrom w dir start (k + 1)
          = (match stepDir w dir start with
             | some c2 => reachFrom w dir c2 k
             | none => none) from rfl, hs1] at hhit
      cases k with
      | zero =>
        cases hhit with
        | inl hx => exact Option.noConfusion hx
        | inr hx =>
          have hc : c = start := Option.some.inj hx
          have hs2 : stepDir w dir c = some c := by
            subst hc
            exact hs1
          apply walkStops_of_hit w dir start n c 1 (by omega) (by omega)
          rw [show reachFrom w dir c 1
              = (match stepDir w dir c with
                 | some c2 => reachFrom w dir c2 0
                 | none => none) from rfl, hs2]
          right
          exact hx
      | succ k2 =>
        exact walkStops_of_hit w dir start n c (k2 + 1) (by omega) (by omega) hhit
  constructor
  · intro fuel hf
    unfold iterateList
    rw [genFrom_stable w dir start n (stepDir w dir start) hws fuel hf]
  · calc (iterateList w dir start n).count start
        ≤ (if stepDir w dir start = some start then 1 else 0) :=
          genFrom_count w dir start n (stepDir w dir start)
      _ ≤ 1 := by split <;> omega


/-- Witness for claim C9 on the concrete three-node cycle, walking next from
node 0. -/
theorem iterate_self_terminates_witness :
    ((∀ fuel, 5 ≤ fuel → iterateList cycW true 0 fuel = iterateList cycW true 0 5)
    ∧ (iterateList cycW true 0 5).count 0 ≤ 1) :=
  iterate_self_terminates cycW true 0 5 (by rfl)


/-! ### Claim C7: bidirectional linking -/

theorem getNode_setNode_self (w : World) (i : Nat) (f : Node → Node) (n : Node)
    (h : w.getNode i = some n) :
    (w.setNode i f).getNode i = some (f n) := by
  rw [getNode_setNode, if_pos rfl, h]
  rfl

theorem alive_prop_setNode {P : Node → Prop} (w : World) (i : Nat) (f : Node → Node) (m : Nat)
    (hf : ∀ n, P n → P (f n)) :
    (∃ n, w.getNode m = some n ∧ P n) →
    ∃ n', (w.setNode i f).getNode m = some n' ∧ P n' := by
  rintro ⟨n, hn, hp⟩
  rw [getNode_setNode]
  split
  · exact ⟨f n, by rw [hn]; rfl, hf n hp⟩
  · exact ⟨n, hn, hp⟩

theorem alive_prop_of_map_eq {γ : Type} (P0 : γ → Prop) (w w' : World) (m : Nat) (π : Node → γ)
    (heq : (w'.getNode m).map π = (w.getNode m).map π) :
    (∃ n, w.getNode m = some n ∧ P0 (π n)) →
    ∃ n', w'.getNode m = some n' ∧ P0 (π n') := by
  rintro ⟨n, hn, hp⟩
  rw [hn] at heq
  cases hg : w'.getNode m with
  | none =>
    rw [hg] at heq
    exact Option.noConfusion heq
  | some n' =>
    rw [hg] at heq
    refine ⟨n', rfl, ?_⟩
    have : π n' = π n := Option.some.inj heq
    rw [this]
    exact hp

theorem mem_addToSet_self (xs : List Nat) (x : Nat) : x ∈ addToSet xs x := by
  unfold addToSet
  split
  · assumption
  · simp

theorem mem_addToSet_of_mem (xs : List Nat) (x y : Nat) (h : y ∈ xs) : y ∈ addToSet xs x := by
  unfold addToSet
  split
  · exact h
  · simp [h]

theorem getNode_map_add_entry (w : World) (hid item m : Nat) {γ : Type} (π : Node → γ)
    (hπ : ∀ n md, π { n with metadata := md } = π n) :
    ((add_entry w hid item).getNode m).map π = (w.getNode m).map π := by
  have hg : ∀ (dd : MetaDelta) (n : Node),
      π (match n.metadata with
         | some m0 => { n with metadata := some (applyMetaDelta m0 dd) }
         | none => n) = π n := by
    intro dd n
    cases n.metadata
    · rfl
    · exact hπ n _
  unfold add_entry
  dsimp only
  repeat' split
  all_goals
    first
    | rfl
    | (refine Eq.trans (getNode_map_setNode _ _ _ _ π (hg _)) ?_
       simp only [getNode_setObj, getNode_setHist])


theorem alive_setNode (w : World) (i : Nat) (f : Node → Node) (m : Nat) :
    (∃ n, w.getNode m = some n) → ∃ n', (w.setNode i f).getNode m = some n' := by
  rintro ⟨n, h⟩
  rw [getNode_setNode]
  split
  · exact ⟨f n, by rw [h]; rfl⟩
  · exact ⟨n, h⟩

set_option maxHeartbeats 1600000 in
/-- Claim C7: for all nodes a and b, after a.link_next(b) the next pointer of
a is b, the previous pointer of b is a, b is a member of the progeny set of a
and a is a member of the ancestors set of b. -/
theorem link_next_bidirectional (w : World) (a b : Nat) (na nb : Node)
    (ha : w.getNode a = some na) (hb : w.getNode b = some nb) :
    ∃ na' nb', (link_next w a b).getNode a = some na' ∧
      (link_next w a b).getNode b = some nb' ∧
      na'.next = some b ∧ nb'.previous = some a ∧
      b ∈ na'.progeny ∧ a ∈ nb'.ancestors := by
  have e1 : set_previous w b (some a) false
      = ((w.setNode b (fun n => { n with previous := some a })).setNode b
          (fun n => { n with ancestors := addToSet n.ancestors a })).setNode a
          (fun n => { n with progeny := addToSet n.progeny b }) := by
    unfold set_previous
    simp only [hb]
    rfl
  have hB1 : ∃ n, (set_previous w b (some a) false).getNode b = some n ∧
      (n.previous = some a ∧ a ∈ n.ancestors) := by
    rw [e1]
    apply alive_prop_setNode _ a (fun n => { n with progeny := addToSet n.progeny b }) b
      (fun n hp => hp)
    exact ⟨_, getNode_setNode_self _ b _ _ (getNode_setNode_self w b _ nb hb),
      rfl, mem_addToSet_self _ _⟩
  have hAlive1a : ∃ n, (set_previous w b (some a) false).getNode a = some n := by
    rw [e1]
    exact alive_setNode _ _ _ _ (alive_setNode _ _ _ _ (alive_setNode _ _ _ _ ⟨na, ha⟩))
  obtain ⟨nb1, hnb1, hP1⟩ := hB1
  have e2 : ∀ cur, set_next (set_previous w b (some a) false) b cur false
      = (match cur with
         | some l =>
            (((set_previous w b (some a) false).setNode b
                (fun n => { n with next := cur })).setNode b
                (fun n => { n with progeny := addToSet n.progeny l })).setNode l
                (fun n => { n with ancestors := addToSet n.ancestors b })
         | none =>
            (set_previous w b (some a) false).setNode b
              (fun n => { n with next := cur })) := by
    intro cur
    unfold set_next
    simp only [hnb1]
    cases cur <;> rfl
  have hB2 : ∃ n, (set_next (set_previous w b (some a) false) b na.next false).getNode b
      = some n ∧ (n.previous = some a ∧ a ∈ n.ancestors) := by
    rw [e2]
    cases na.next with
    | none =>
      exact alive_prop_setNode _ b (fun n => { n with next := none }) b
        (fun n hp => hp) ⟨nb1, hnb1, hP1⟩
    | some cn =>
      apply alive_prop_setNode _ cn (fun n => { n with ancestors := addToSet n.ancestors b }) b
        (fun n hp => ⟨hp.1, mem_addToSet_of_mem _ _ _ hp.2⟩)
      apply alive_prop_setNode _ b (fun n => { n with progeny := addToSet n.progeny cn }) b
        (fun n hp => hp)
      exact alive_prop_setNode _ b (fun n => { n with next := some cn }) b
        (fun n hp => hp) ⟨nb1, hnb1, hP1⟩
  have hAlive2a : ∃ n,
      (set_next (set_previous w b (some a) false) b na.next false).getNode a = some n := by
    rw [e2]
    cases na.next with
    | none => exact alive_setNode _ _ _ _ hAlive1a
    | some cn =>
      exact alive_setNode _ _ _ _ (alive_setNode _ _ _ _ (alive_setNode _ _ _ _ hAlive1a))
  obtain ⟨nb2, hnb2, hP2⟩ := hB2
  obtain ⟨na2, hna2⟩ := hAlive2a
  have e3 : ∀ (W2 : World) (n2w : Node), W2.getNode a = some n2w →
      set_next W2 a (some b) true
      = (match (((W2.setNode a
            (fun n => { n with next := some b })).setNode a
            (fun n => { n with progeny := addToSet n.progeny b })).setNode b
            (fun n => { n with ancestors := addToSet n.ancestors a })).getNode a with
         | some n2 =>
            add_entry (((W2.setNode a
              (fun n => { n with next := some b })).setNode a
              (fun n => { n with progeny := addToSet n.progeny b })).setNode b
              (fun n => { n with ancestors := addToSet n.ancestors a })) n2.hist a
         | none =>
            ((W2.setNode a
              (fun n => { n with next := some b })).setNode a
              (fun n => { n with progeny := addToSet n.progeny b })).setNode b
              (fun n => { n with ancestors := addToSet n.ancestors a }) ) := by
    intro W2 n2w hW2a
    unfold set_next
    simp only [hW2a]
    rfl
  have hA3pre : ∃ n, ((((set_next (set_previous w b (some a) false) b na.next false).setNode a
      (fun n => { n with next := some b })).setNode a
      (fun n => { n with progeny := addToSet n.progeny b })).setNode b
      (fun n => { n with ancestors := addToSet n.ancestors a })).getNode a
      = some n ∧ (n.next = some b ∧ b ∈ n.progeny) := by
    apply alive_prop_setNode _ b (fun n => { n with ancestors := addToSet n.ancestors a }) a
      (fun n hp => hp)
    exact ⟨_, getNode_setNode_self _ a _ _ (getNode_setNode_self _ a _ _ hna2),
      rfl, mem_addToSet_self _ _⟩
  have hB3pre : ∃ n, ((((set_next (set_previous w b (some a) false) b na.next false).setNode a
      (fun n => { n with next := some b })).setNode a
      (fun n => { n with progeny := addToSet n.progeny b })).setNode b
      (fun n => { n with ancestors := addToSet n.ancestors a })).getNode b
      = some n ∧ (n.previous = some a ∧ a ∈ n.ancestors) := by
    apply alive_prop_setNode _ b (fun n => { n with ancestors := addToSet n.ancestors a }) b
      (fun n hp => ⟨hp.1, mem_addToSet_of_mem _ _ _ hp.2⟩)
    apply alive_prop_setNode _ a (fun n => { n with progeny := addToSet n.progeny b }) b
      (fun n hp => hp)
    exact alive_prop_setNode _ a (fun n => { n with next := some b }) b
      (fun n hp => hp) ⟨nb2, hnb2, hP2⟩
  obtain ⟨naP, hnaP, hAP⟩ := hA3pre
  have hA3 : ∃ n, (set_next (set_next (set_previous w b (some a) false) b na.next false) a
      (some b) true).getNode a = some n ∧ (n.next = some b ∧ b ∈ n.progeny) := by
    rw [e3 _ na2 hna2]
    simp only [hnaP]
    exact alive_prop_of_map_eq (fun pr => pr.1 = some b ∧ b ∈ pr.2) _ _ a
      (fun n => (n.next, n.progeny))
      (getNode_map_add_entry _ _ _ _ _ (fun n md => rfl)) ⟨naP, hnaP, hAP⟩
  have hB3 : ∃ n, (set_next (set_next (set_previous w b (some a) false) b na.next false) a
      (some b) true).getNode b = some n ∧ (n.previous = some a ∧ a ∈ n.ancestors) := by
    rw [e3 _ na2 hna2]
    simp only [hnaP]
    exact alive_prop_of_map_eq (fun pr => pr.1 = some a ∧ a ∈ pr.2) _ _ b
      (fun n => (n.previous, n.ancestors))
      (getNode_map_add_entry _ _ _ _ _ (fun n md => rfl)) hB3pre
  obtain ⟨na3, hna3, hA3p⟩ := hA3
  obtain ⟨nb3, hnb3, hB3p⟩ := hB3
  unfold link_next
  simp only [ha]
  simp only [hna3, hnb3]
  split
  · obtain ⟨na4, hna4, hA4⟩ := alive_prop_of_map_eq (fun pr => pr.1 = some b ∧ b ∈ pr.2)
      _ _ a (fun n => (n.next, n.progeny))
      (getNode_map_add_entry _ nb3.hist b a _ (fun n md => rfl)) ⟨na3, hna3, hA3p⟩
    obtain ⟨nb4, hnb4, hB4⟩ := alive_prop_of_map_eq (fun pr => pr.1 = some a ∧ a ∈ pr.2)
      _ _ b (fun n => (n.previous, n.ancestors))
      (getNode_map_add_entry _ nb3.hist b b _ (fun n md => rfl)) ⟨nb3, hnb3, hB3p⟩
    exact ⟨na4, nb4, hna4, hnb4, hA4.1, hB4.1, hA4.2, hB4.2⟩
  · exact ⟨na3, nb3, hna3, hnb3, hA3p.1, hB3p.1, hA3p.2, hB3p.2⟩

/-- Witness for claim C7 on two concrete nodes. -/
theorem link_next_bidirectional_witness :
    ∃ na' nb', (link_next exLinkW 0 4).getNode 0 = some na' ∧
      (link_next exLinkW 0 4).getNode 4 = some nb' ∧
      na'.next = some 4 ∧ nb'.previous = some 0 ∧
      4 ∈ na'.progeny ∧ 0 ∈ nb'.ancestors :=
  link_next_bidirectional exLinkW 0 4 exLNa exLNb (by rfl) (by rfl)

/-! ### Claim C6: delta_between_points -/

/-- Claim C6: for every history and all indices start, end within the
timeline, when end > start delta_between_points equals the last-write-wins
union, in forward order, of the data_delta of the entries at indices start+1
through end inclusive; when end <= start it returns an empty delta (no delta
inversion is attempted). -/
theorem delta_between_points_spec (w : World) (hid : Nat) (h : Hist)
    (hh : w.getHist hid = some h) (start e : Int)
    (hs0 : 0 ≤ start) (hsl : start < (h.timeline.length : Int))
    (he0 : 0 ≤ e) (hel : e < (h.timeline.length : Int)) :
    (start < e → delta_between_points w hid start e
      = foldDeltas [] (entriesSeg h.timeline (start.toNat + 1) (e.toNat - start.toNat)))
    ∧ (e ≤ start → delta_between_points w hid start e = []) := by
  constructor
  · intro hlt
    unfold delta_between_points
    simp only [hh]
    rw [if_neg (by omega), if_pos hlt]
    exact foldl_loopIdxs_entries h.timeline
      (fun acc en =>
        match en.data_delta with
        | some d => Obj.assign acc d
        | none => acc)
      (e.toNat - start.toNat) (start.toNat + 1) (by omega) []
  · intro hle
    unfold delta_between_points
    simp only [hh]
    rw [if_neg (by omega), if_neg (by omega)]

/-- Witness for claim C6 on the concrete example lineage (timeline length 4,
forward query 0 to 3 and backward query 3 to 0). -/
theorem delta_between_points_spec_witness :
    (((0 : Int) < 3 → delta_between_points exW3 (histOf exW3 exN) 0 3
      = foldDeltas [] (entriesSeg exH3.timeline ((0 : Int).toNat + 1)
          ((3 : Int).toNat - (0 : Int).toNat)))
    ∧ ((3 : Int) ≤ 0 → delta_between_points exW3 (histOf exW3 exN) 0 3 = [])) :=
  delta_between_points_spec exW3 (histOf exW3 exN) exH3 (by rfl) 0 3 (by decide) (by decide)
    (by decide) (by decide)

/-! ### Claim C5: out-of-bounds history indices -/

/-- Claim C5: for an index outside the interval from 0 to the timeline length,
rebuild_at returns the not-found result with the world (hence latest_state and
the timeline) unchanged, and branch_from_history raises the invalid-index
error which propagates to the caller, appends no entry and modifies nothing:
both calls return the world exactly as given. -/
theorem out_of_bounds_rebuild_and_branch (w : World) (nid : Nat) (n : Node) (h : Hist)
    (hn : w.getNode nid = some n) (hh : w.getHist n.hist = some h) (index : Int)
    (hoob : index < 0 ∨ (h.timeline.length : Int) ≤ index) :
    rebuild_at w n.hist index = (w, none) ∧
    branch_from_history w nid index = (w, none) := by
  have hr : rebuild_at w n.hist index = (w, none) := by
    unfold rebuild_at
    simp only [hh]
    rw [if_pos hoob]
  refine ⟨hr, ?_⟩
  unfold branch_from_history
  simp only [hn, hr]

/-- Witness for claim C5 on the concrete example lineage, at index 9 for a
timeline of length 4 and at index -1. -/
theorem out_of_bounds_rebuild_and_branch_witness :
    (rebuild_at exW3 exNode3.hist 9 = (exW3, none) ∧
      branch_from_history exW3 exN 9 = (exW3, none)) ∧
    (rebuild_at exW3 exNode3.hist (-1) = (exW3, none) ∧
      branch_from_history exW3 exN (-1) = (exW3, none)) :=
  ⟨out_of_bounds_rebuild_and_branch exW3 exN exNode3 exH3 (by rfl) (by rfl) 9
      (by right; decide),
    out_of_bounds_rebuild_and_branch exW3 exN exNode3 exH3 (by rfl) (by rfl) (-1)
      (by left; decide)⟩

theorem setsMono_refl (w : World) : SetsMono w w :=
  fun _ n h => ⟨n, h, fun _ hx => hx, fun _ hx => hx⟩

theorem setsMono_trans {w1 w2 w3 : World} (h12 : SetsMono w1 w2) (h23 : SetsMono w2 w3) :
    SetsMono w1 w3 := by
  intro nid n h
  obtain ⟨n2, h2, ha2, hp2⟩ := h12 nid n h
  obtain ⟨n3, h3, ha3, hp3⟩ := h23 nid n2 h2
  exact ⟨n3, h3, fun x hx => ha3 x (ha2 x hx), fun x hx => hp3 x (hp2 x hx)⟩

theorem setsMono_nodes_eq {w w' : World} (h : w'.nodes = w.nodes) : SetsMono w w' := by
  intro nid n hn
  refine ⟨n, ?_, fun _ hx => hx, fun _ hx => hx⟩
  rw [World.getNode, h]
  exact hn

theorem mono_setNode {w w' : World} (h : SetsMono w w') (i : Nat) (f : Node → Node)
    (hfa : ∀ n x, x ∈ n.ancestors → x ∈ (f n).ancestors)
    (hfp : ∀ n x, x ∈ n.progeny → x ∈ (f n).progeny) :
    SetsMono w (w'.setNode i f) := by
  refine setsMono_trans h ?_
  intro nid n hn
  rw [getNode_setNode]
  split
  · exact ⟨f n, by rw [hn]; rfl, hfa n, hfp n⟩
  · exact ⟨n, hn, fun _ hx => hx, fun _ hx => hx⟩

theorem mono_setObj {w w' : World} (h : SetsMono w w') (i : Nat) (o : Obj) :
    SetsMono w (w'.setObj i o) :=
  setsMono_trans h (setsMono_nodes_eq rfl)

theorem mono_setHist {w w' : World} (h : SetsMono w w') (i : Nat) (f : Hist → Hist) :
    SetsMono w (w'.setHist i f) :=
  setsMono_trans h (setsMono_nodes_eq (nodes_setHist _ _ _))

theorem mono_allocNode {w w' : World} (h : SetsMono w w') (n : Node) :
    SetsMono w (w'.allocNode n).1 := by
  refine setsMono_trans h ?_
  intro nid n0 hn
  refine ⟨n0, ?_, fun _ hx => hx, fun _ hx => hx⟩
  rw [getNode_allocNode]
  rw [if_neg ?_]
  · exact hn
  · intro he
    rw [he, World.getNode, List.getElem?_eq_none (Nat.le_refl _)] at hn
    exact Option.noConfusion hn

theorem mono_allocObj {w w' : World} (h : SetsMono w w') (o : Obj) :
    SetsMono w (w'.allocObj o).1 :=
  setsMono_trans h (setsMono_nodes_eq rfl)

theorem mono_keepFields (n : Node) (x : Nat) :
    (x ∈ n.ancestors → x ∈ n.ancestors) ∧ (x ∈ n.progeny → x ∈ n.progeny) :=
  ⟨fun hx => hx, fun hx => hx⟩

theorem setsMono_of_map_pair (w w' : World)
    (h : ∀ m, (w'.getNode m).map (fun n => (n.ancestors, n.progeny))
        = (w.getNode m).map (fun n => (n.ancestors, n.progeny))) : SetsMono w w' := by
  intro nid n hn
  have h2 := h nid
  rw [hn] at h2
  cases hg : w'.getNode nid with
  | none =>
    rw [hg] at h2
    exact Option.noConfusion h2
  | some n' =>
    rw [hg] at h2
    have h3 : (n'.ancestors, n'.progeny) = (n.ancestors, n.progeny) := Option.some.inj h2
    have ha : n'.ancestors = n.ancestors := congrArg Prod.fst h3
    have hp : n'.progeny = n.progeny := congrArg Prod.snd h3
    exact ⟨n', rfl, fun x hx => ha ▸ hx, fun x hx => hp ▸ hx⟩

theorem setsMono_add_entry (w : World) (hid item : Nat) :
    SetsMono w (add_entry w hid item) :=
  setsMono_of_map_pair _ _ (fun m =>
    getNode_map_add_entry w hid item m _ (fun n md => rfl))

theorem nodes_add_entry_raw (w : World) (hid : Nat) (item : Obj) :
    (add_entry_raw w hid item).nodes = w.nodes := by
  unfold add_entry_raw
  dsimp only
  repeat' split
  all_goals first
    | rfl
    | rw [nodes_setObj, nodes_setHist]
    | rw [nodes_setHist]

theorem setsMono_add_entry_raw (w : World) (hid : Nat) (item : Obj) :
    SetsMono w (add_entry_raw w hid item) :=
  setsMono_nodes_eq (nodes_add_entry_raw w hid item)

theorem setsMono_registerPrev (w : World) (nid : Nat) :
    SetsMono w (registerPrev w nid) := by
  unfold registerPrev
  split
  · rename_i p hp
    exact mono_setNode
      (mono_setNode (setsMono_refl w) nid
        (fun n => { n with ancestors := addToSet n.ancestors p })
        (fun n x hx => mem_addToSet_of_mem _ _ _ hx) (fun n x hx => hx)) p
      (fun n => { n with progeny := addToSet n.progeny nid })
      (fun n x hx => hx) (fun n x hx => mem_addToSet_of_mem _ _ _ hx)
  · exact setsMono_refl _

theorem setsMono_registerNext (w : World) (nid : Nat) :
    SetsMono w (registerNext w nid) := by
  unfold registerNext
  split
  · rename_i nx hnx
    exact mono_setNode
      (mono_setNode (setsMono_refl w) nid
        (fun n => { n with progeny := addToSet n.progeny nx })
        (fun n x hx => hx) (fun n x hx => mem_addToSet_of_mem _ _ _ hx)) nx
      (fun n => { n with ancestors := addToSet n.ancestors nid })
      (fun n x hx => mem_addToSet_of_mem _ _ _ hx) (fun n x hx => hx)
  · exact setsMono_refl _

theorem setsMono_registerNeighbors (w : World) (nid : Nat) :
    SetsMono w (registerNeighbors w nid) :=
  setsMono_trans (setsMono_registerPrev w nid) (setsMono_registerNext _ nid)

theorem setsMono_mkSnapshotNode (w : World) (ing : Ingredients) (hid : Nat) :
    SetsMono w (mkSnapshotNode w ing hid).1 := by
  unfold mkSnapshotNode
  exact setsMono_trans (mono_allocNode (setsMono_refl _) _) (setsMono_registerNeighbors _ _)

theorem setsMono_cloneData (w : World) (d : Option Nat) :
    SetsMono w (cloneData w d).1 := by
  unfold cloneData
  repeat' split
  all_goals first
    | (with_reducible exact setsMono_refl _)
    | exact mono_allocObj (setsMono_refl _) _

theorem setsMono_create_snapshot_link (w : World) (hid link : Nat) :
    SetsMono w (create_snapshot_link w hid link).1 := by
  unfold create_snapshot_link
  split
  · exact setsMono_refl _
  · exact setsMono_trans (setsMono_cloneData _ _) (setsMono_mkSnapshotNode _ _ _)

theorem setsMono_add_checkpoint (w : World) (hid link : Nat) :
    SetsMono w (add_checkpoint w hid link) := by
  unfold add_checkpoint
  exact mono_setHist (setsMono_create_snapshot_link _ _ _) _ _

theorem setsMono_mkChain (w : World) (ing : Ingredients) :
    SetsMono w (mkChain w ing).1 := by
  unfold mkChain
  split
  · exact setsMono_mkSnapshotNode _ _ _
  · dsimp only
    refine setsMono_trans ?_ (setsMono_registerNeighbors _ _)
    refine setsMono_trans ?_ (setsMono_add_checkpoint _ _ _)
    refine setsMono_trans ?_ (setsMono_nodes_eq rfl)
    refine setsMono_trans ?_ (setsMono_create_snapshot_link _ _ _)
    refine setsMono_trans ?_ (setsMono_create_snapshot_link _ _ _)
    exact mono_allocNode (setsMono_refl _) _

theorem setsMono_set_next (w : World) (nid : Nat) (l : Option Nat) (record : Bool) :
    SetsMono w (set_next w nid l record) := by
  unfold set_next
  split
  · exact setsMono_refl _
  · dsimp only
    have hbase : SetsMono w
        (match l with
         | some l2 =>
            ((w.setNode nid (fun n => { n with next := l })).setNode nid
              (fun n => { n with progeny := addToSet n.progeny l2 })).setNode l2
              (fun n => { n with ancestors := addToSet n.ancestors nid })
         | none => w.setNode nid (fun n => { n with next := l })) := by
      cases l with
      | none =>
        exact mono_setNode (setsMono_refl w) nid (fun n => { n with next := none })
          (fun n x hx => hx) (fun n x hx => hx)
      | some l2 =>
        exact mono_setNode
          (mono_setNode
            (mono_setNode (setsMono_refl w) nid (fun n => { n with next := some l2 })
              (fun n x hx => hx) (fun n x hx => hx))
            nid (fun n => { n with progeny := addToSet n.progeny l2 })
            (fun n x hx => hx) (fun n x hx => mem_addToSet_of_mem _ _ _ hx)) l2
          (fun n => { n with ancestors := addToSet n.ancestors nid })
          (fun n x hx => mem_addToSet_of_mem _ _ _ hx) (fun n x hx => hx)
    split
    · split
      · exact setsMono_trans hbase (setsMono_add_entry _ _ _)
      · exact hbase
    · exact hbase

theorem setsMono_set_previous (w : World) (nid : Nat) (l : Option Nat) (record : Bool) :
    SetsMono w (set_previous w nid l record) := by
  unfold set_previous
  split
  · exact setsMono_refl _
  · dsimp only
    have hbase : SetsMono w
        (match l with
         | some l2 =>
            ((w.setNode nid (fun n => { n with previous := l })).setNode nid
              (fun n => { n with ancestors := addToSet n.ancestors l2 })).setNode l2
              (fun n => { n with progeny := addToSet n.progeny nid })
         | none => w.setNode nid (fun n => { n with previous := l })) := by
      cases l with
      | none =>
        exact mono_setNode (setsMono_refl w) nid (fun n => { n with previous := none })
          (fun n x hx => hx) (fun n x hx => hx)
      | some l2 =>
        exact mono_setNode
          (mono_setNode
            (mono_setNode (setsMono_refl w) nid (fun n => { n with previous := some l2 })
              (fun n x hx => hx) (fun n x hx => hx))
            nid (fun n => { n with ancestors := addToSet n.ancestors l2 })
            (fun n x hx => mem_addToSet_of_mem _ _ _ hx) (fun n x hx => hx)) l2
          (fun n => { n with progeny := addToSet n.progeny nid })
          (fun n x hx => hx) (fun n x hx => mem_addToSet_of_mem _ _ _ hx)
    split
    · split
      · exact setsMono_trans hbase (setsMono_add_entry _ _ _)
      · exact hbase
    · exact hbase

theorem setsMono_setNode_layer (w : World) (i : Nat) (f : Node → Node)
    (hfa : ∀ n x, x ∈ n.ancestors → x ∈ (f n).ancestors)
    (hfp : ∀ n x, x ∈ n.progeny → x ∈ (f n).progeny) :
    SetsMono w (w.setNode i f) :=
  mono_setNode (setsMono_refl w) i f hfa hfp

theorem setsMono_update_metadata (w : World) (nid : Nat) (m : Meta) :
    SetsMono w (update_metadata w nid m) := by
  unfold update_metadata
  split
  · exact setsMono_refl _
  · refine setsMono_trans ?_ (setsMono_add_entry _ _ _)
    exact setsMono_setNode_layer _ _ _ (fun n x hx => hx) (fun n x hx => hx)

theorem setsMono_update (w : World) (nid : Nat) (ing : Ingredients) :
    SetsMono w (update w nid ing) := by
  unfold update
  split
  · exact setsMono_refl _
  · dsimp only
    have step_prev : ∀ (X : World), SetsMono w X →
        SetsMono w (match ing.parent with
          | some pl => set_previous X nid pl false
          | none => X) := by
      intro X hX
      cases ing.parent
      · exact hX
      · exact setsMono_trans hX (setsMono_set_previous _ _ _ _)
    have step_next : ∀ (X : World), SetsMono w X →
        SetsMono w (match ing.next with
          | some nl => set_next X nid nl false
          | none => X) := by
      intro X hX
      cases ing.next
      · exact hX
      · exact setsMono_trans hX (setsMono_set_next _ _ _ _)
    have step_data : ∀ (X : World), SetsMono w X →
        SetsMono w (match ing.data with
          | some oid => X.setNode nid (fun nn => { nn with data := some oid })
          | none => X) := by
      intro X hX
      cases ing.data with
      | none => exact hX
      | some oid =>
        exact setsMono_trans hX (setsMono_setNode_layer X nid
          (fun nn => { nn with data := some oid })
          (fun n x hx => hx) (fun n x hx => hx))
    have step_meta2 : ∀ (X : World), SetsMono w X →
        SetsMono w (match ing.metadata with
          | some m => X.setNode nid
              (fun nn => { nn with metadata := some (mergeMeta m (metadataOf nn)) })
          | none => X) := by
      intro X hX
      cases ing.metadata with
      | none => exact hX
      | some m =>
        exact setsMono_trans hX (setsMono_setNode_layer X nid
          (fun nn => { nn with metadata := some (mergeMeta m (metadataOf nn)) })
          (fun n x hx => hx) (fun n x hx => hx))
    have step_meta1 : SetsMono w (match ing.metadata with
        | some m => update_metadata w nid m
        | none => w) := by
      cases ing.metadata with
      | none => exact setsMono_refl _
      | some m => exact setsMono_update_metadata _ _ _
    refine setsMono_trans ?_ (setsMono_add_entry _ _ _)
    exact step_prev _ (step_next _ (step_data _ (step_meta2 _ step_meta1)))

theorem setsMono_add_link (w : World) (a link : Nat) :
    SetsMono w (add_link w a link) := by
  unfold add_link
  split
  · exact setsMono_refl _
  · refine setsMono_trans ?_ (setsMono_add_entry _ _ _)
    exact mono_setNode
      (setsMono_setNode_layer w a (fun n => { n with progeny := addToSet n.progeny link })
        (fun n x hx => hx) (fun n x hx => mem_addToSet_of_mem _ _ _ hx)) link
      (fun n => { n with ancestors := addToSet n.ancestors a })
      (fun n x hx => mem_addToSet_of_mem _ _ _ hx) (fun n x hx => hx)

theorem setsMono_link_next (w : World) (a b : Nat) :
    SetsMono w (link_next w a b) := by
  unfold link_next
  split
  · exact setsMono_refl _
  · rename_i na0 hna0
    dsimp only
    have hbase : SetsMono w
        (set_next (set_next (set_previous w b (some a) false) b na0.next false) a
          (some b) true) :=
      setsMono_trans (setsMono_trans (setsMono_set_previous _ _ _ _)
        (setsMono_set_next _ _ _ _)) (setsMono_set_next _ _ _ _)
    split
    · split
      · exact setsMono_trans hbase (setsMono_add_entry _ _ _)
      · exact hbase
    · exact hbase

theorem setsMono_link_previous (w : World) (a b : Nat) :
    SetsMono w (link_previous w a b) := by
  unfold link_previous
  split
  · exact setsMono_refl _
  · rename_i na0 hna0
    dsimp only
    have h1 : SetsMono w
        (match na0.previous with
         | some cp => set_next w cp (some b) true
         | none => w) := by
      split
      · exact setsMono_set_next _ _ _ _
      · exact setsMono_refl _
    have hbase : SetsMono w
        (set_previous (set_next (set_previous
          (match na0.previous with
           | some cp => set_next w cp (some b) true
           | none => w) b na0.previous false) b (some a) false) a (some b) true) :=
      setsMono_trans (setsMono_trans (setsMono_trans h1
        (setsMono_set_previous _ _ _ _)) (setsMono_set_next _ _ _ _))
        (setsMono_set_previous _ _ _ _)
    split
    · split
      · exact setsMono_trans hbase (setsMono_add_entry _ _ _)
      · exact hbase
    · exact hbase

theorem setsMono_save_checkpoint (w : World) (hid : Nat) :
    SetsMono w (save_checkpoint w hid) := by
  unfold save_checkpoint
  split
  · exact setsMono_refl _
  · exact mono_setHist (setsMono_create_snapshot_link _ _ _) _ _

theorem setsMono_replayStep (tl : List Entry) (w : World) (base i : Nat) :
    SetsMono w (replayStep tl w base i) := by
  unfold replayStep
  repeat' split
  all_goals first
    | (with_reducible exact setsMono_refl _)
    | exact setsMono_setNode_layer _ _ _
        (fun n x hx => by cases n.metadata <;> exact hx)
        (fun n x hx => by cases n.metadata <;> exact hx)
    | exact mono_setObj (setsMono_refl _) _ _
    | exact mono_setNode (mono_setObj (setsMono_refl _) _ _) _ _
        (fun n x hx => by cases n.metadata <;> exact hx)
        (fun n x hx => by cases n.metadata <;> exact hx)

theorem setsMono_replayFold (tl : List Entry) (base : Nat) :
    ∀ (l : List Nat) (w : World),
      SetsMono w (l.foldl (fun ww k => replayStep tl ww base k) w) := by
  intro l
  induction l with
  | nil => intro w; exact setsMono_refl _
  | cons k rest ih =>
    intro w
    exact setsMono_trans (setsMono_replayStep tl w base k) (ih _)

theorem setsMono_rebuild_at (w : World) (hid : Nat) (index : Int) :
    SetsMono w (rebuild_at w hid index).1 := by
  unfold rebuild_at
  split
  · exact setsMono_refl _
  · split
    · exact setsMono_refl _
    · dsimp only
      split
      · dsimp only
        exact setsMono_trans (setsMono_create_snapshot_link _ _ _) (setsMono_replayFold _ _ _ _)
      · dsimp only
        exact setsMono_trans (setsMono_create_snapshot_link _ _ _) (setsMono_replayFold _ _ _ _)

theorem setsMono_revert_to_history (w : World) (nid : Nat) (index : Int) :
    SetsMono w (revert_to_history w nid index) := by
  unfold revert_to_history
  split
  · exact setsMono_refl _
  · rename_i n hn
    have hreb : SetsMono w (rebuild_at w n.hist index).1 := setsMono_rebuild_at w n.hist index
    split
    · rename_i w1 st heq
      have hw1 : SetsMono w w1 := by
        rw [heq] at hreb
        exact hreb
      split
      · exact hw1
      · split
        · exact hw1
        · refine setsMono_trans ?_ (setsMono_add_entry _ _ _)
          exact setsMono_trans hw1
            (setsMono_setNode_layer _ _ _ (fun n2 x hx => hx) (fun n2 x hx => hx))

theorem setsMono_branch_from_history (w : World) (nid : Nat) (index : Int) :
    SetsMono w (branch_from_history w nid index).1 := by
  unfold branch_from_history
  split
  · exact setsMono_refl _
  · rename_i n hn
    have hreb : SetsMono w (rebuild_at w n.hist index).1 := setsMono_rebuild_at w n.hist index
    split
    · rename_i w1 st heq
      have hw1 : SetsMono w w1 := by
        rw [heq] at hreb
        exact hreb
      split
      · exact hw1
      · split
        · exact hw1
        · dsimp only
          refine setsMono_trans ?_ (setsMono_add_entry _ _ _)
          exact setsMono_trans hw1 (setsMono_mkChain w1 _)

theorem setsMono_applyOp (w : World) (op : Op) : SetsMono w (applyOp w op) := by
  cases op with
  | opSetNext nid link record => exact setsMono_set_next w nid link record
  | opSetPrevious nid link record => exact setsMono_set_previous w nid link record
  | opUpdate nid ing => exact setsMono_update w nid ing
  | opLinkNext a b => exact setsMono_link_next w a b
  | opLinkPrevious a b => exact setsMono_link_previous w a b
  | opAddLink a link => exact setsMono_add_link w a link
  | opRevertToHistory nid index => exact setsMono_revert_to_history w nid index
  | opBranchFromHistory nid index => exact setsMono_branch_from_history w nid index

/-- C8: for every node and every sequence of public operations (set_next,
set_previous, update, link_next, link_previous, add_link, revert_to_history,
branch_from_history), each live node stays live and its ancestors and progeny
sets only grow: no element is ever removed from either set, so re-pointing
next or previous to a new neighbor never removes the old neighbor from
either side's sets. -/
theorem ancestors_progeny_monotone (w : World) (ops : List Op) :
    SetsMono w (applyOps w ops) := by
  induction ops generalizing w with
  | nil => exact setsMono_refl _
  | cons op rest ih =>
    exact setsMono_trans (setsMono_applyOp w op) (ih (applyOp w op))

/-- C2: the claim says one update call appends at most one timeline entry for
every combination of supplied fields.  The code refutes it: update first calls
update_metadata, whose own add_entry already pushes the metadata change, and
then calls add_entry again at the end, so an update supplying both data and
metadata appends two entries.  On the concrete failing input (genesis node
with data value 0 and title a, then update to value 1 and title b) the
timeline grows from 1 to 3. -/
theorem update_data_and_metadata_appends_two :
    tlLen c2Base.1 c2Base.2 = 1 ∧ tlLen c2After c2Base.2 = 3 := by
  constructor <;> rfl

theorem noop_update_recorded_after_branch_cex :
    dataVal c4Branched exN = some [(0, 1)] ∧
    (c4Payload.1.getObj c4Payload.2 = some [(0, 1)]) ∧
    tlLen2 c4After exN = tlLen2 c4Branched exN + 1 := by
  refine ⟨rfl, rfl, rfl⟩

/-- C4 (amended): an update whose data payload introduces no change relative
to the latest_state snapshot (and carries no metadata, next or parent field,
with the snapshot's metadata in sync with the node's) appends nothing: the
call degenerates to replacing the node's data reference, and every history is
left untouched.  The amendment adds the latest-state-sync precondition; the
unqualified claim is refuted by the counterexample theorem, because
branch_from_history folds the branch's stale data into latest_state and
desynchronizes it from the live node. -/
theorem noop_update_not_recorded (w : World) (nid poid : Nat) (n latest : Node)
    (h : Hist) (loid : Nat) (lv pv : Obj)
    (h1 : w.getNode nid = some n) (h2 : w.getHist n.hist = some h)
    (h3 : nid ≠ h.latest_state) (h4 : w.getNode h.latest_state = some latest)
    (h5 : latest.data = some loid) (h6 : w.getObj loid = some lv)
    (h7 : w.getObj poid = some pv)
    (h8 : calculate_delta lv pv = [])
    (h9 : (calculate_metadata_delta (metadataOf latest) (metadataOf n)).isEmpty = true) :
    update w nid { data := some poid } =
      w.setNode nid (fun nn => { nn with data := some poid }) ∧
    ∀ hid2, (update w nid { data := some poid }).getHist hid2 = w.getHist hid2 := by
  have key : update w nid { data := some poid } =
      w.setNode nid (fun nn => { nn with data := some poid }) := by
    unfold update
    simp only [h1]
    unfold add_entry
    simp only [getHist_setNode, h2, getNode_setNode_self w nid _ n h1]
    simp only [getNode_setNode, if_neg h3, h4]
    simp only [h5, getObj_setNode, h6, h7, h8]
    simp only [List.isEmpty_nil, Bool.not_true, Bool.false_or]
    simp only [show metadataOf { n with data := some poid } = metadataOf n from rfl, h9]
    simp only [Bool.not_true, Bool.false_eq_true, if_false]
  refine ⟨key, fun hid2 => ?_⟩
  rw [key, getHist_setNode]

theorem noop_update_not_recorded_witness :
    update c4SyncP.1 exN { data := some c4SyncP.2 } =
      c4SyncP.1.setNode exN (fun nn => { nn with data := some c4SyncP.2 }) :=
  (noop_update_not_recorded c4SyncP.1 exN c4SyncP.2 c4N c4Latest c4H c4Loid c4Lv [(0, 0)]
    (by rfl) (by rfl) (by decide) (by rfl) (by rfl) (by rfl) (by rfl) (by rfl) (by rfl)).1

theorem create_snapshot_link_dataless (w : World) (hid src : Nat) (sn : Node)
    (hsrc : w.getNode src = some sn) (hd : sn.data = none) :
    ((create_snapshot_link w hid src).1.getNode
      (create_snapshot_link w hid src).2).bind Node.data = none := by
  unfold create_snapshot_link cloneData mkSnapshotNode
  simp only [hsrc, hd]
  rw [bind_data_registerNeighbors, getNode_allocNode_self]
  rfl

theorem replayStepE_ok (tl : List Entry) (w : World) (base i : Nat) (w' : World)
    (h : replayStepE tl w base i = .ok w') : replayStep tl w base i = w' := by
  unfold replayStepE at h
  unfold replayStep
  split at h
  · rename_i hg
    try simp only [hg]
    exact Except.ok.inj h
  · rename_i e hg
    try simp only [hg]
    split at h
    · rename_i d hd
      try simp only [hd]
      split at h
      · rename_i boid hboid
        try simp only [hboid]
        exact Except.ok.inj h
      · exact absurd h (by simp)
    · rename_i hd
      try simp only [hd]
      exact Except.ok.inj h

theorem replayFoldE_ok (tl : List Entry) (base : Nat) :
    ∀ (c s : Nat) (w wf : World),
      (loopIdxs s c).foldlM (fun ww k => replayStepE tl ww base k) w = .ok wf →
      (loopIdxs s c).foldl (fun ww k => replayStep tl ww base k) w = wf := by
  intro c
  induction c with
  | zero =>
    intro s w wf h
    exact Except.ok.inj h
  | succ c ih =>
    intro s w wf h
    rw [show loopIdxs s (c + 1) = s :: loopIdxs (s + 1) c from rfl] at h ⊢
    rw [List.foldlM_cons] at h
    rw [List.foldl_cons]
    cases hstep : replayStepE tl w base s with
    | error e =>
      rw [hstep] at h
      exact Except.noConfusion h
    | ok w1 =>
      rw [hstep] at h
      rw [replayStepE_ok tl w base s w1 hstep]
      exact ih (s + 1) w1 wf (by
        rw [show ((Except.ok w1 : Except Unit World) >>= fun w2 =>
          (loopIdxs (s + 1) c).foldlM (fun ww k => replayStepE tl ww base k) w2)
            = (loopIdxs (s + 1) c).foldlM (fun ww k => replayStepE tl ww base k) w1
          from rfl] at h
        exact h)

theorem rebuild_atE_ok (w : World) (hid : Nat) (index : Int) (p : World × Option Nat)
    (h : rebuild_atE w hid index = .ok p) : rebuild_at w hid index = p := by
  unfold rebuild_atE at h
  unfold rebuild_at
  split at h
  · rename_i hg
    try simp only [hg]
    exact Except.ok.inj h
  · rename_i hh hg
    try simp only [hg]
    split at h
    · rename_i hb
      rw [if_pos hb]
      exact Except.ok.inj h
    · rename_i hb
      rw [if_neg hb]
      cases hfc : findLastCheckpoint hh.timeline index.toNat with
      | some pr =>
        obtain ⟨j, cnid⟩ := pr
        simp only [hfc] at h ⊢
        cases hcsl : create_snapshot_link w hid cnid with
        | mk wa bb =>
          simp only [hcsl] at h ⊢
          cases hfold : (loopIdxs (j + 1) (index.toNat + 1 - (j + 1))).foldlM
              (fun ww k => replayStepE hh.timeline ww bb k) wa with
          | error e =>
            rw [hfold] at h
            exact Except.noConfusion h
          | ok wf =>
            rw [hfold] at h
            rw [replayFoldE_ok _ _ _ _ _ wf hfold]
            exact Except.ok.inj h
      | none =>
        simp only [hfc] at h ⊢
        cases hcsl : create_snapshot_link w hid hh.original_state with
        | mk wa bb =>
          simp only [hcsl] at h ⊢
          cases hfold : (loopIdxs 0 (index.toNat + 1 - 0)).foldlM
              (fun ww k => replayStepE hh.timeline ww bb k) wa with
          | error e =>
            rw [hfold] at h
            exact Except.noConfusion h
          | ok wf =>
            rw [hfold] at h
            rw [replayFoldE_ok _ _ _ _ _ wf hfold]
            exact Except.ok.inj h

theorem replayStepE_dataless (tl : List Entry) (w : World) (base i : Nat)
    (hb : (w.getNode base).bind Node.data = none) (w' : World)
    (h : replayStepE tl w base i = .ok w') :
    (w'.getNode base).bind Node.data = none := by
  unfold replayStepE at h
  split at h
  · rw [← Except.ok.inj h]
    exact hb
  · split at h
    · split at h
      · rename_i boid hboid
        rw [hb] at hboid
        exact Option.noConfusion hboid
      · exact Except.noConfusion h
    · rw [← Except.ok.inj h]
      split
      · rw [bind_data_setNode]
        · exact hb
        · intro n
          cases hn : n.metadata <;> rfl
      · exact hb

theorem replay_loopE_dataless (tl : List Entry) (base : Nat) :
    ∀ (c s : Nat) (w : World),
      (w.getNode base).bind Node.data = none →
      ∀ (wf : World),
        (loopIdxs s c).foldlM (fun ww k => replayStepE tl ww base k) w = .ok wf →
        (wf.getNode base).bind Node.data = none := by
  intro c
  induction c with
  | zero =>
    intro s w hb wf h
    rw [← Except.ok.inj h]
    exact hb
  | succ c ih =>
    intro s w hb wf h
    rw [show loopIdxs s (c + 1) = s :: loopIdxs (s + 1) c from rfl, List.foldlM_cons] at h
    cases hstep : replayStepE tl w base s with
    | error e =>
      rw [hstep] at h
      exact Except.noConfusion h
    | ok w1 =>
      rw [hstep] at h
      refine ih (s + 1) w1 (replayStepE_dataless tl w base s hb w1 hstep) wf ?_
      rw [show ((Except.ok w1 : Except Unit World) >>= fun w2 =>
        (loopIdxs (s + 1) c).foldlM (fun ww k => replayStepE tl ww base k) w2)
          = (loopIdxs (s + 1) c).foldlM (fun ww k => replayStepE tl ww base k) w1
        from rfl] at h
      exact h

theorem rebuild_datalessE (w : World) (hid : Nat) (index : Int) (h : Hist)
    (hh : w.getHist hid = some h) (hdl : datalessHist w h = true) :
    ∀ (w2 : World) (b : Nat), rebuild_atE w hid index = .ok (w2, some b) →
      dataVal w2 b = none := by
  intro w2 b hr
  unfold rebuild_atE at hr
  simp only [hh] at hr
  split at hr
  · have := Except.ok.inj hr
    exact absurd (congrArg Prod.snd this) (by simp)
  · rename_i hbound
    unfold datalessHist at hdl
    rw [Bool.and_eq_true] at hdl
    obtain ⟨hdo, hdc⟩ := hdl
    cases hfc : findLastCheckpoint h.timeline index.toNat with
    | some pr =>
      obtain ⟨j, cnid⟩ := pr
      simp only [hfc] at hr
      have hcp := (findLastCheckpoint_some h.timeline index.toNat j cnid hfc).2
      have hsnap : ((create_snapshot_link w hid cnid).1.getNode
          (create_snapshot_link w hid cnid).2).bind Node.data = none := by
        cases hg : h.timeline.get? j with
        | none =>
          rw [hg] at hcp
          exact absurd hcp (by simp)
        | some e =>
          rw [hg, Option.some_bind] at hcp
          have hmem : e ∈ h.timeline := List.get?_mem hg
          rw [List.all_eq_true] at hdc
          have pe := hdc e hmem
          simp only [hcp] at pe
          cases hgn : w.getNode cnid with
          | none =>
            rw [hgn] at pe
            exact absurd pe (by simp)
          | some cn =>
            rw [hgn] at pe
            rw [beq_iff_eq] at pe
            exact create_snapshot_link_dataless w hid cnid cn hgn pe
      cases hcsl : create_snapshot_link w hid cnid with
      | mk wa bb =>
        rw [hcsl] at hsnap hr
        dsimp only at hr hsnap
        cases hfold : (loopIdxs (j + 1) (index.toNat + 1 - (j + 1))).foldlM
            (fun ww k => replayStepE h.timeline ww bb k) wa with
        | error e =>
          rw [hfold] at hr
          exact Except.noConfusion hr
        | ok wf =>
          rw [hfold] at hr
          have hp := Except.ok.inj hr
          have hw2 : wf = w2 := congrArg Prod.fst hp
          have hbb : bb = b := Option.some.inj (congrArg Prod.snd hp)
          subst hw2 hbb
          unfold dataVal
          rw [replay_loopE_dataless h.timeline _ _ _ _ hsnap _ hfold]
          rfl
    | none =>
      simp only [hfc] at hr
      have hsnap : ((create_snapshot_link w hid h.original_state).1.getNode
          (create_snapshot_link w hid h.original_state).2).bind Node.data = none := by
        cases hgn : w.getNode h.original_state with
        | none =>
          rw [hgn] at hdo
          exact absurd hdo (by simp)
        | some onode =>
          rw [hgn] at hdo
          rw [beq_iff_eq] at hdo
          exact create_snapshot_link_dataless w hid h.original_state onode hgn hdo
      cases hcsl : create_snapshot_link w hid h.original_state with
      | mk wa bb =>
        rw [hcsl] at hsnap hr
        dsimp only at hr hsnap
        cases hfold : (loopIdxs 0 (index.toNat + 1 - 0)).foldlM
            (fun ww k => replayStepE h.timeline ww bb k) wa with
        | error e =>
          rw [hfold] at hr
          exact Except.noConfusion hr
        | ok wf =>
          rw [hfold] at hr
          have hp := Except.ok.inj hr
          have hw2 : wf = w2 := congrArg Prod.fst hp
          have hbb : bb = b := Option.some.inj (congrArg Prod.snd hp)
          subst hw2 hbb
          unfold dataVal
          rw [replay_loopE_dataless h.timeline _ _ _ _ hsnap _ hfold]
          rfl

/-- C10 counterexample: a node constructed without data, desynchronized by
add_link against a titled neighbor (the cross-history add_entry folds the
neighbor's metadata into latest_state and pushes a metadata-only entry whose
data_delta is the truthy empty object), then updated with only a data field:
the timeline grows from 2 to 3 entries although the frozen claim says none is
appended, and replaying past the recorded entry raises the TypeError of the
source (Object.assign onto the data-less base), Except.error in the faithful
model. -/
theorem dataless_update_recorded_after_desync_cex :
    (c10dW2.getNode 0).bind Node.data = none ∧
    tlLen c10dW2 0 = 2 ∧ tlLen c10dW3 0 = 3 ∧
    rebuild_atE c10dW3 (histOf c10dW3 0) 1 = .error () := by
  refine ⟨rfl, rfl, rfl, rfl⟩

/-- C10 (amended): for a node on a data-less lineage whose latest_state
snapshot is still in metadata-sync with the node, an update supplying only a
data field changes data() to the new payload but appends no timeline entry
(the data delta is only computed when latest_state already holds data), the
snapshot stays data-less, every history is unchanged, and every replay of the
data-less lineage that completes without raising yields a snapshot with no
data, so the payload is never reflected in any rebuild.  The metadata-sync
precondition is the amendment: the counterexample theorem shows the frozen
claim fails once add_link has desynchronized the snapshot's metadata, because
add_entry then records the metadata drift even for a data-only update. -/
theorem dataless_update_never_recorded (w : World) (nid poid : Nat) (n latest : Node)
    (h : Hist)
    (h1 : w.getNode nid = some n) (h2 : w.getHist n.hist = some h)
    (h3 : nid ≠ h.latest_state) (h4 : w.getNode h.latest_state = some latest)
    (h5 : latest.data = none)
    (h9 : (calculate_metadata_delta (metadataOf latest) (metadataOf n)).isEmpty = true) :
    update w nid { data := some poid } =
      w.setNode nid (fun nn => { nn with data := some poid }) ∧
    (update w nid { data := some poid }).getNode nid = some { n with data := some poid } ∧
    (∀ hid2, (update w nid { data := some poid }).getHist hid2 = w.getHist hid2) ∧
    ((update w nid { data := some poid }).getNode h.latest_state).bind Node.data = none ∧
    (∀ (index : Int) (w2 : World) (b : Nat),
      datalessHist (update w nid { data := some poid }) h = true →
      rebuild_atE (update w nid { data := some poid }) n.hist index = .ok (w2, some b) →
      dataVal w2 b = none) := by
  have key : update w nid { data := some poid } =
      w.setNode nid (fun nn => { nn with data := some poid }) := by
    unfold update
    simp only [h1]
    unfold add_entry
    simp only [getHist_setNode, h2, getNode_setNode_self w nid _ n h1]
    simp only [getNode_setNode, if_neg h3, h4]
    simp only [h5]
    simp only [show metadataOf { n with data := some poid } = metadataOf n from rfl, h9]
    simp only [Bool.not_true, Bool.or_self, Bool.false_eq_true, if_false]
  refine ⟨key, ?_, ?_, ?_, ?_⟩
  · rw [key, getNode_setNode_self w nid _ n h1]
  · intro hid2
    rw [key, getHist_setNode]
  · rw [key, getNode_setNode, if_neg h3, h4, Option.some_bind, h5]
  · intro index w2 b hdl hr
    refine rebuild_datalessE _ n.hist index h ?_ hdl w2 b hr
    rw [key, getHist_setNode]
    exact h2

theorem dataless_update_never_recorded_witness :
    update c10P.1 0 { data := some c10P.2 } =
      c10P.1.setNode 0 (fun nn => { nn with data := some c10P.2 }) :=
  (dataless_update_never_recorded c10P.1 0 c10P.2 c10N c10Latest c10H
    (by rfl) (by rfl) (by decide) (by rfl) (by rfl) (by rfl)).1

theorem updFrame_init (w : World) (hid lid m : Nat)
    (h : (w.getHist hid).map Hist.latest_state = some lid) :
    updFrame w hid lid m ((w.getNode lid).bind Node.data) w :=
  ⟨rfl, fun _ _ => rfl, h, rfl⟩

theorem updFrame_setNode_dataPres {w : World} {hid lid m : Nat} {latData : Option Nat}
    {X : World} (h : updFrame w hid lid m latData X) (i : Nat) (f : Node → Node)
    (hf : ∀ nn, (f nn).data = nn.data) :
    updFrame w hid lid m latData (X.setNode i f) := by
  obtain ⟨c1, c2, c3, c4⟩ := h
  refine ⟨?_, ?_, ?_, ?_⟩
  · rw [bind_data_setNode _ _ _ _ hf]
    exact c1
  · intro moid hm
    rw [getObj_setNode]
    exact c2 moid hm
  · rw [getHist_setNode]
    exact c3
  · rw [bind_data_setNode _ _ _ _ hf]
    exact c4

theorem updFrame_setNode_ne {w : World} {hid lid m : Nat} {latData : Option Nat}
    {X : World} (h : updFrame w hid lid m latData X) (i : Nat) (f : Node → Node)
    (him : i ≠ m) (hil : i ≠ lid) :
    updFrame w hid lid m latData (X.setNode i f) := by
  obtain ⟨c1, c2, c3, c4⟩ := h
  refine ⟨?_, ?_, ?_, ?_⟩
  · rw [getNode_setNode, if_neg him]
    exact c1
  · intro moid hm
    rw [getObj_setNode]
    exact c2 moid hm
  · rw [getHist_setNode]
    exact c3
  · rw [getNode_setNode, if_neg hil]
    exact c4

theorem updFrame_setHist {w : World} {hid lid m : Nat} {latData : Option Nat}
    {X : World} (h : updFrame w hid lid m latData X) (i : Nat) (f : Hist → Hist)
    (hf : ∀ hh, (f hh).latest_state = hh.latest_state) :
    updFrame w hid lid m latData (X.setHist i f) := by
  obtain ⟨c1, c2, c3, c4⟩ := h
  refine ⟨?_, ?_, ?_, ?_⟩
  · rw [getNode_setHist]
    exact c1
  · intro moid hm
    rw [getObj_setHist]
    exact c2 moid hm
  · rw [getHist_setHist]
    split
    · rw [Option.map_map, show Hist.latest_state ∘ f = Hist.latest_state from funext hf]
      exact c3
    · exact c3
  · rw [getNode_setHist]
    exact c4

theorem updFrame_setObj {w : World} {hid lid m : Nat} {latData : Option Nat}
    {X : World} (h : updFrame w hid lid m latData X) (oid : Nat) (o : Obj)
    (hoid : ∀ moid, (w.getNode m).bind Node.data = some moid → moid ≠ oid) :
    updFrame w hid lid m latData (X.setObj oid o) := by
  obtain ⟨c1, c2, c3, c4⟩ := h
  refine ⟨?_, ?_, ?_, ?_⟩
  · rw [getNode_setObj]
    exact c1
  · intro moid hm
    rw [getObj_setObj, if_neg (fun e => hoid moid hm e.symm)]
    exact c2 moid hm
  · rw [getHist_setObj]
    exact c3
  · rw [getNode_setObj]
    exact c4

theorem updFrame_set_next {w : World} {hid lid m : Nat} {latData : Option Nat}
    {X : World} (h : updFrame w hid lid m latData X) (i : Nat) (l : Option Nat) :
    updFrame w hid lid m latData (set_next X i l false) := by
  unfold set_next
  split
  · exact h
  · dsimp only
    simp only [Bool.false_eq_true, if_false]
    split
    · rename_i l'
      exact updFrame_setNode_dataPres
        (updFrame_setNode_dataPres
          (updFrame_setNode_dataPres h i (fun n => { n with next := some l' })
            (fun nn => rfl))
          i (fun n => { n with progeny := addToSet n.progeny l' }) (fun nn => rfl))
        l' (fun n => { n with ancestors := addToSet n.ancestors i }) (fun nn => rfl)
    · exact updFrame_setNode_dataPres h i (fun n => { n with next := none }) (fun nn => rfl)

theorem updFrame_set_previous {w : World} {hid lid m : Nat} {latData : Option Nat}
    {X : World} (h : updFrame w hid lid m latData X) (i : Nat) (l : Option Nat) :
    updFrame w hid lid m latData (set_previous X i l false) := by
  unfold set_previous
  split
  · exact h
  · dsimp only
    simp only [Bool.false_eq_true, if_false]
    split
    · rename_i l'
      exact updFrame_setNode_dataPres
        (updFrame_setNode_dataPres
          (updFrame_setNode_dataPres h i (fun n => { n with previous := some l' })
            (fun nn => rfl))
          i (fun n => { n with ancestors := addToSet n.ancestors l' }) (fun nn => rfl))
        l' (fun n => { n with progeny := addToSet n.progeny i }) (fun nn => rfl)
    · exact updFrame_setNode_dataPres h i (fun n => { n with previous := none })
        (fun nn => rfl)

theorem updFrame_add_entry {w : World} {hid lid m : Nat} {latData : Option Nat}
    {X : World} (h : updFrame w hid lid m latData X) (item : Nat)
    (hdisj : ∀ moid loid, (w.getNode m).bind Node.data = some moid →
      latData = some loid → moid ≠ loid) :
    updFrame w hid lid m latData (add_entry X hid item) := by
  obtain ⟨c1, c2, c3, c4⟩ := h
  unfold add_entry
  split
  · rename_i hyX itX hhX hitX
    split
    · exact ⟨c1, c2, c3, c4⟩
    · rename_i latestX hlX
      have hlid : hyX.latest_state = lid := by
        rw [hhX] at c3
        exact Option.some.inj c3
      have hlatd : latestX.data = latData := by
        rw [hlid] at hlX
        rw [hlX] at c4
        exact c4
      dsimp only
      split
      · refine updFrame_setNode_dataPres ?_ _ _ ?_
        · split
          · rename_i d loid hd hld
            split
            · refine updFrame_setObj (updFrame_setHist ⟨c1, c2, c3, c4⟩ hid _ ?_) _ _
                (fun moid hm => hdisj moid loid hm (by rw [← hlatd, hld]))
              intro hh
              rfl
            · refine updFrame_setHist ⟨c1, c2, c3, c4⟩ hid _ ?_
              intro hh
              rfl
          · refine updFrame_setHist ⟨c1, c2, c3, c4⟩ hid _ ?_
            intro hh
            rfl
        · intro nn
          cases nn.metadata <;> rfl
      · exact ⟨c1, c2, c3, c4⟩
  · exact ⟨c1, c2, c3, c4⟩

theorem dataVal_update_frame (w : World) (nid m lid : Nat) (ing : Ingredients) (n : Node)
    (h1 : w.getNode nid = some n)
    (h2 : (w.getHist n.hist).map Hist.latest_state = some lid)
    (hm : nid ≠ m) (hl : nid ≠ lid)
    (hdisj : ∀ moid loid, (w.getNode m).bind Node.data = some moid →
      (w.getNode lid).bind Node.data = some loid → moid ≠ loid) :
    dataVal (update w nid ing) m = dataVal w m := by
  suffices hF : updFrame w n.hist lid m ((w.getNode lid).bind Node.data) (update w nid ing) by
    obtain ⟨c1, c2, _, _⟩ := hF
    unfold dataVal
    rw [c1]
    cases hmo : (w.getNode m).bind Node.data with
    | none => rfl
    | some moid =>
      simp only [Option.some_bind]
      exact c2 moid hmo
  have base : updFrame w n.hist lid m ((w.getNode lid).bind Node.data) w :=
    updFrame_init w n.hist lid m h2
  unfold update
  simp only [h1]
  have s1 : updFrame w n.hist lid m ((w.getNode lid).bind Node.data)
      (match ing.metadata with
       | some mm => update_metadata w nid mm
       | none => w) := by
    cases ing.metadata with
    | none => exact base
    | some mm =>
      unfold update_metadata
      simp only [h1]
      exact updFrame_add_entry (updFrame_setNode_dataPres base nid
        (fun nn => { nn with metadata := some (mergeMeta mm (metadataOf nn)) })
        (fun nn => rfl)) nid hdisj
  have s2 : ∀ (X : World), updFrame w n.hist lid m ((w.getNode lid).bind Node.data) X →
      updFrame w n.hist lid m ((w.getNode lid).bind Node.data)
        (match ing.metadata with
         | some mm => X.setNode nid
             (fun nn => { nn with metadata := some (mergeMeta mm (metadataOf nn)) })
         | none => X) := by
    intro X hX
    cases ing.metadata with
    | none => exact hX
    | some mm =>
      exact updFrame_setNode_dataPres hX nid
        (fun nn => { nn with metadata := some (mergeMeta mm (metadataOf nn)) })
        (fun nn => rfl)
  have s3 : ∀ (X : World), updFrame w n.hist lid m ((w.getNode lid).bind Node.data) X →
      updFrame w n.hist lid m ((w.getNode lid).bind Node.data)
        (match ing.data with
         | some oid => X.setNode nid (fun nn => { nn with data := some oid })
         | none => X) := by
    intro X hX
    cases ing.data with
    | none => exact hX
    | some oid => exact updFrame_setNode_ne hX nid _ hm hl
  have s4 : ∀ (X : World), updFrame w n.hist lid m ((w.getNode lid).bind Node.data) X →
      updFrame w n.hist lid m ((w.getNode lid).bind Node.data)
        (match ing.next with
         | some nl => set_next X nid nl false
         | none => X) := by
    intro X hX
    cases ing.next with
    | none => exact hX
    | some nl => exact updFrame_set_next hX nid nl
  have s5 : ∀ (X : World), updFrame w n.hist lid m ((w.getNode lid).bind Node.data) X →
      updFrame w n.hist lid m ((w.getNode lid).bind Node.data)
        (match ing.parent with
         | some pl => set_previous X nid pl false
         | none => X) := by
    intro X hX
    cases ing.parent with
    | none => exact hX
    | some pl => exact updFrame_set_previous hX nid pl
  exact updFrame_add_entry (s5 _ (s4 _ (s3 _ (s2 _ s1)))) nid hdisj

theorem objs_ext_eq {w1 w2 : World} (h : w2.objs = w1.objs) :
    ∃ t, w2.objs = w1.objs ++ t :=
  ⟨[], by rw [h, List.append_nil]⟩

theorem objs_ext_trans {w1 w2 w3 : World} (h12 : ∃ t, w2.objs = w1.objs ++ t)
    (h23 : ∃ t, w3.objs = w2.objs ++ t) : ∃ t, w3.objs = w1.objs ++ t := by
  obtain ⟨t1, e1⟩ := h12
  obtain ⟨t2, e2⟩ := h23
  exact ⟨t1 ++ t2, by rw [e2, e1, List.append_assoc]⟩

theorem getObj_of_ext {w w' : World} (h : ∃ t, w'.objs = w.objs ++ t)
    {m : Nat} (hm : m < w.objs.length) : w'.getObj m = w.getObj m := by
  obtain ⟨t, e⟩ := h
  show w'.objs[m]? = w.objs[m]?
  rw [e, List.getElem?_append_left hm]

theorem nodes_pushHist (w : World) (h : Hist) : (w.pushHist h).nodes = w.nodes := rfl

theorem objs_pushHist (w : World) (h : Hist) : (w.pushHist h).objs = w.objs := rfl

theorem hists_pushHist (w : World) (h : Hist) : (w.pushHist h).hists = w.hists ++ [h] := rfl

theorem getNode_pushHist (w : World) (h : Hist) (m : Nat) :
    (w.pushHist h).getNode m = w.getNode m := rfl

theorem getObj_pushHist (w : World) (h : Hist) (m : Nat) :
    (w.pushHist h).getObj m = w.getObj m := rfl

theorem getHist_pushHist_old (w : World) (h : Hist) (hid0 : Nat)
    (hm : hid0 < w.hists.length) : (w.pushHist h).getHist hid0 = w.getHist hid0 := by
  show (w.hists ++ [h])[hid0]? = w.hists[hid0]?
  rw [List.getElem?_append_left hm]

theorem objs_cloneData (w : World) (d : Option Nat) :
    ∃ t, (cloneData w d).1.objs = w.objs ++ t := by
  unfold cloneData
  split
  · exact objs_ext_eq rfl
  · split
    · exact ⟨_, rfl⟩
    · exact objs_ext_eq rfl

theorem objs_mkSnapshotNode (w : World) (ing : Ingredients) (hid : Nat) :
    (mkSnapshotNode w ing hid).1.objs = w.objs := by
  unfold mkSnapshotNode
  dsimp only
  rw [objs_registerNeighbors]
  rfl

theorem objs_create_snapshot_link (w : World) (hid link : Nat) :
    ∃ t, (create_snapshot_link w hid link).1.objs = w.objs ++ t := by
  unfold create_snapshot_link
  split
  · exact objs_ext_eq rfl
  · dsimp only
    refine objs_ext_trans ?_ (objs_ext_eq (objs_mkSnapshotNode _ _ _))
    exact objs_cloneData _ _

theorem objs_add_checkpoint (w : World) (hid link : Nat) :
    ∃ t, (add_checkpoint w hid link).objs = w.objs ++ t := by
  unfold add_checkpoint
  dsimp only
  refine objs_ext_trans ?_ (objs_ext_eq (objs_setHist _ _ _))
  exact objs_create_snapshot_link _ _ _

theorem objs_mkChain (w : World) (ing : Ingredients) :
    ∃ t, (mkChain w ing).1.objs = w.objs ++ t := by
  unfold mkChain
  split
  · exact objs_ext_eq (objs_mkSnapshotNode _ _ _)
  · dsimp only
    refine objs_ext_trans ?_ (objs_ext_eq (objs_registerNeighbors _ _))
    refine objs_ext_trans ?_ (objs_add_checkpoint _ _ _)
    refine objs_ext_trans ?_ (objs_ext_eq (objs_pushHist _ _))
    refine objs_ext_trans ?_ (objs_create_snapshot_link _ _ _)
    refine objs_ext_trans ?_ (objs_create_snapshot_link _ _ _)
    exact objs_ext_eq rfl

theorem hists_cloneData (w : World) (d : Option Nat) :
    (cloneData w d).1.hists = w.hists := by
  unfold cloneData
  split
  · rfl
  · split <;> rfl

theorem hists_mkSnapshotNode (w : World) (ing : Ingredients) (hid : Nat) :
    (mkSnapshotNode w ing hid).1.hists = w.hists := by
  unfold mkSnapshotNode
  dsimp only
  rw [hists_registerNeighbors]
  rfl

theorem hists_create_snapshot_link (w : World) (hid link : Nat) :
    (create_snapshot_link w hid link).1.hists = w.hists := by
  unfold create_snapshot_link
  split
  · rfl
  · dsimp only
    rw [hists_mkSnapshotNode, hists_cloneData]

theorem getHist_of_hists_eq {w1 w2 : World} (h : w2.hists = w1.hists) (hid0 : Nat) :
    w2.getHist hid0 = w1.getHist hid0 := by
  show w2.hists[hid0]? = w1.hists[hid0]?
  rw [h]

theorem getHist_of_hists_ext {w1 w2 : World} (t : List Hist) (h : w2.hists = w1.hists ++ t)
    (hid0 : Nat) (hm : hid0 < w1.hists.length) : w2.getHist hid0 = w1.getHist hid0 := by
  show w2.hists[hid0]? = w1.hists[hid0]?
  rw [h, List.getElem?_append_left hm]

theorem getHist_add_checkpoint_ne (w : World) (hid link hid0 : Nat) (hne : hid ≠ hid0) :
    (add_checkpoint w hid link).getHist hid0 = w.getHist hid0 := by
  unfold add_checkpoint
  dsimp only
  rw [getHist_setHist, if_neg hne]
  exact getHist_of_hists_eq (hists_create_snapshot_link _ _ _) hid0

theorem getHist_mkChain (w : World) (ing : Ingredients) (hid0 : Nat)
    (hm : hid0 < w.hists.length) :
    (mkChain w ing).1.getHist hid0 = w.getHist hid0 := by
  unfold mkChain
  split
  · exact getHist_of_hists_eq (hists_mkSnapshotNode _ _ _) hid0
  · dsimp only
    rw [getHist_registerNeighbors,
      getHist_add_checkpoint_ne _ _ _ _ (by omega),
      getHist_pushHist_old _ _ _ (by
        rw [hists_create_snapshot_link, hists_create_snapshot_link]
        exact hm)]
    refine getHist_of_hists_eq ?_ hid0
    rw [hists_create_snapshot_link, hists_create_snapshot_link]
    rfl

theorem nodes_cloneData (w : World) (d : Option Nat) :
    (cloneData w d).1.nodes = w.nodes := by
  unfold cloneData
  split
  · rfl
  · split <;> rfl

theorem getNode_map_of_nodes_eq {w1 w2 : World} (h : w2.nodes = w1.nodes) (m : Nat)
    {γ : Type} (π : Node → γ) : (w2.getNode m).map π = (w1.getNode m).map π := by
  show (w2.nodes[m]?).map π = (w1.nodes[m]?).map π
  rw [h]

theorem nodesLength_le_trans {w1 w2 w3 : World}
    (h12 : w1.nodes.length ≤ w2.nodes.length) (h23 : w2.nodes.length ≤ w3.nodes.length) :
    w1.nodes.length ≤ w3.nodes.length :=
  le_trans h12 h23

theorem getNode_map_mkSnapshotNode_old (w : World) (ing : Ingredients) (hid m : Nat)
    {γ : Type} (π : Node → γ) (hπ : ∀ n a p, π { n with ancestors := a, progeny := p } = π n)
    (hm : m < w.nodes.length) :
    ((mkSnapshotNode w ing hid).1.getNode m).map π = (w.getNode m).map π := by
  unfold mkSnapshotNode
  dsimp only
  rw [getNode_map_registerNeighbors _ _ _ π hπ, getNode_allocNode, if_neg (by omega)]

theorem nodesLength_mkSnapshotNode (w : World) (ing : Ingredients) (hid : Nat) :
    (mkSnapshotNode w ing hid).1.nodes.length = w.nodes.length + 1 := by
  unfold mkSnapshotNode
  dsimp only
  rw [nodesLength_registerNeighbors]
  simp [World.allocNode]

theorem getNode_map_csl (w : World) (hid link m : Nat)
    {γ : Type} (π : Node → γ) (hπ : ∀ n a p, π { n with ancestors := a, progeny := p } = π n)
    (hm : m < w.nodes.length) :
    ((create_snapshot_link w hid link).1.getNode m).map π = (w.getNode m).map π := by
  unfold create_snapshot_link
  split
  · rfl
  · dsimp only
    rw [getNode_map_mkSnapshotNode_old _ _ _ _ π hπ
        (by rw [nodes_cloneData]; exact hm)]
    exact getNode_map_of_nodes_eq (nodes_cloneData _ _) m π

theorem nodesLength_csl_ge (w : World) (hid link : Nat) :
    w.nodes.length ≤ (create_snapshot_link w hid link).1.nodes.length := by
  unfold create_snapshot_link
  split
  · exact le_refl _
  · rename_i ln hln
    dsimp only
    rw [nodesLength_mkSnapshotNode]
    have h2 := congrArg List.length (nodes_cloneData w ln.data)
    omega

theorem nodes_setHistEq (w : World) (i : Nat) (f : Hist → Hist) :
    (w.setHist i f).nodes = w.nodes := by
  unfold World.setHist
  split <;> rfl

theorem getNode_map_add_checkpoint (w : World) (hid link m : Nat)
    {γ : Type} (π : Node → γ) (hπ : ∀ n a p, π { n with ancestors := a, progeny := p } = π n)
    (hm : m < w.nodes.length) :
    ((add_checkpoint w hid link).getNode m).map π = (w.getNode m).map π := by
  unfold add_checkpoint
  dsimp only
  rw [getNode_setHist]
  exact getNode_map_csl _ _ _ _ π hπ hm

theorem nodesLength_add_checkpoint_ge (w : World) (hid link : Nat) :
    w.nodes.length ≤ (add_checkpoint w hid link).nodes.length := by
  unfold add_checkpoint
  dsimp only
  rw [nodes_setHistEq]
  exact nodesLength_csl_ge w hid link

theorem nodesLength_allocNode_ge (w : World) (n : Node) :
    w.nodes.length ≤ (w.allocNode n).1.nodes.length := by
  simp [World.allocNode]

theorem nodesLength_mkChain_ge (w : World) (ing : Ingredients) :
    w.nodes.length ≤ (mkChain w ing).1.nodes.length := by
  unfold mkChain
  split
  · rw [nodesLength_mkSnapshotNode]
    omega
  · dsimp only
    rw [nodesLength_registerNeighbors]
    refine nodesLength_le_trans ?_ (nodesLength_add_checkpoint_ge _ _ _)
    refine nodesLength_le_trans ?_ (le_of_eq (congrArg List.length (nodes_pushHist _ _)).symm)
    refine nodesLength_le_trans ?_ (nodesLength_csl_ge _ _ _)
    refine nodesLength_le_trans ?_ (nodesLength_csl_ge _ _ _)
    exact nodesLength_allocNode_ge _ _

theorem getNode_map_mkChain (w : World) (ing : Ingredients) (m : Nat)
    {γ : Type} (π : Node → γ) (hπ : ∀ n a p, π { n with ancestors := a, progeny := p } = π n)
    (hm : m < w.nodes.length) :
    ((mkChain w ing).1.getNode m).map π = (w.getNode m).map π := by
  unfold mkChain
  split
  · exact getNode_map_mkSnapshotNode_old _ _ _ _ π hπ hm
  · dsimp only
    rw [getNode_map_registerNeighbors _ _ _ π hπ]
    rw [getNode_map_add_checkpoint _ _ _ _ π hπ ?side]
    case side =>
      refine lt_of_lt_of_le hm ?_
      refine nodesLength_le_trans ?_ (le_of_eq (congrArg List.length (nodes_pushHist _ _)).symm)
      refine nodesLength_le_trans ?_ (nodesLength_csl_ge _ _ _)
      refine nodesLength_le_trans ?_ (nodesLength_csl_ge _ _ _)
      exact nodesLength_allocNode_ge _ _
    rw [getNode_pushHist]
    rw [getNode_map_csl _ _ _ _ π hπ ?s2]
    case s2 =>
      refine lt_of_lt_of_le hm ?_
      refine nodesLength_le_trans ?_ (nodesLength_csl_ge _ _ _)
      exact nodesLength_allocNode_ge _ _
    rw [getNode_map_csl _ _ _ _ π hπ ?s3]
    case s3 =>
      refine lt_of_lt_of_le hm ?_
      exact nodesLength_allocNode_ge _ _
    rw [getNode_allocNode, if_neg (by omega)]

theorem mkChain_snd (w : World) (ing : Ingredients)
    (hg : (ing.is_snapshot.getD false && ing.history.isSome) = false) :
    (mkChain w ing).2 = w.nodes.length := by
  unfold mkChain
  rw [if_neg (by simp [hg])]
  rfl

theorem getNode_map_mkChain_self (w : World) (ing : Ingredients)
    {γ : Type} (π : Node → γ) (hπ : ∀ n a p, π { n with ancestors := a, progeny := p } = π n)
    (hg : (ing.is_snapshot.getD false && ing.history.isSome) = false) :
    ((mkChain w ing).1.getNode w.nodes.length).map π
      = some (π
          { data := ing.data, previous := ing.parent.getD none,
            next := ing.next.getD none, origin := ing.origin, metadata := ing.metadata,
            is_snapshot := ing.is_snapshot.getD false, hist := w.hists.length,
            progeny := [], ancestors := [] }) := by
  unfold mkChain
  rw [if_neg (by simp [hg])]
  dsimp only
  rw [getNode_map_registerNeighbors _ _ _ π hπ]
  rw [getNode_map_add_checkpoint _ _ _ _ π hπ ?side]
  case side =>
    refine lt_of_lt_of_le (Nat.lt_succ_self _) ?_
    refine le_trans ?_ (le_of_eq (congrArg List.length (nodes_pushHist _ _)).symm)
    refine le_trans ?_ (nodesLength_csl_ge _ _ _)
    refine le_trans ?_ (nodesLength_csl_ge _ _ _)
    simp [World.allocNode]
  rw [getNode_pushHist]
  rw [getNode_map_csl _ _ _ _ π hπ ?s2]
  case s2 =>
    refine lt_of_lt_of_le (Nat.lt_succ_self _) ?_
    refine le_trans ?_ (nodesLength_csl_ge _ _ _)
    simp [World.allocNode]
  rw [getNode_map_csl _ _ _ _ π hπ ?s3]
  case s3 =>
    simp [World.allocNode]
  rw [getNode_allocNode, if_pos rfl]
  rfl

theorem nodesLength_replayStep (tl : List Entry) (w : World) (base i : Nat) :
    (replayStep tl w base i).nodes.length = w.nodes.length := by
  unfold replayStep
  repeat' split
  all_goals simp only [nodesLength_setNode, nodes_setObj]

theorem nodesLength_replayFold (tl : List Entry) (base : Nat) :
    ∀ (c s : Nat) (w : World),
      ((loopIdxs s c).foldl (fun ww k => replayStep tl ww base k) w).nodes.length
        = w.nodes.length := by
  intro c
  induction c with
  | zero =>
    intro s w
    rfl
  | succ c ih =>
    intro s w
    rw [show loopIdxs s (c + 1) = s :: loopIdxs (s + 1) c from rfl, List.foldl_cons,
      ih (s + 1) (replayStep tl w base s), nodesLength_replayStep]

theorem nodesLength_rebuild_ge (w : World) (hid : Nat) (k : Int) :
    w.nodes.length ≤ (rebuild_at w hid k).1.nodes.length := by
  unfold rebuild_at
  split
  · exact le_refl _
  · split
    · exact le_refl _
    · dsimp only
      split
      · rename_i j cnid hfc
        rw [nodesLength_replayFold]
        exact nodesLength_csl_ge _ _ _
      · rw [nodesLength_replayFold]
        exact nodesLength_csl_ge _ _ _

theorem branch_execution (w : World) (nid : Nat) (k : Int) (n sn : Node)
    (w1 : World) (sb : Nat)
    (h1 : w.getNode nid = some n)
    (h2 : rebuild_at w n.hist k = (w1, some sb))
    (h4 : w1.getNode sb = some sn) :
    branch_from_history w nid k
      = (add_entry (mkChain w1 (branchIngredients nid n sn)).1 n.hist
          (mkChain w1 (branchIngredients nid n sn)).2,
         some (mkChain w1 (branchIngredients nid n sn)).2) := by
  unfold branch_from_history branchIngredients
  simp only [h1, h2, h4]

set_option maxHeartbeats 3200000 in
/-- C3: branching from an in-bounds history index yields a fresh node b
distinct from the source node a, whose data value equals the rebuilt
snapshot's data value at that index, and whose origin is a's origin when a
has one and otherwise a itself; afterwards an update on a never changes b's
data value and an update on b never changes a's, under the heap-disjointness
facts that hold for API-built worlds (each node is distinct from the tracked
latest_state snapshot of the updated node's history, and its payload object
is distinct from that snapshot's payload object). -/
theorem branch_from_history_independence
    (w w1 wp : World) (nid sb b lidA lidB : Nat) (k : Int)
    (n sn np bn : Node) (hy1 : Hist) (lat1 : Node)
    (h1 : w.getNode nid = some n)
    (h2 : rebuild_at w n.hist k = (w1, some sb))
    (h3 : branch_from_history w nid k = (wp, some b))
    (h4 : w1.getNode sb = some sn)
    (h5 : w1.getHist n.hist = some hy1)
    (h6 : w1.getNode hy1.latest_state = some lat1)
    (hdisjS : ∀ soid loid, sn.data = some soid → lat1.data = some loid → soid ≠ loid)
    (hso : ∀ soid, sn.data = some soid → soid < w1.objs.length)
    (g1 : wp.getNode nid = some np)
    (g2 : (wp.getHist np.hist).map Hist.latest_state = some lidA)
    (g3 : nid ≠ lidA)
    (gD1 : ∀ moid loid, (wp.getNode b).bind Node.data = some moid →
      (wp.getNode lidA).bind Node.data = some loid → moid ≠ loid)
    (g5 : wp.getNode b = some bn)
    (g6 : (wp.getHist bn.hist).map Hist.latest_state = some lidB)
    (g7 : b ≠ lidB)
    (gD2 : ∀ moid loid, (wp.getNode nid).bind Node.data = some moid →
      (wp.getNode lidB).bind Node.data = some loid → moid ≠ loid) :
    b ≠ nid ∧
    dataVal wp b = dataVal w1 sb ∧
    (wp.getNode b).map Node.origin = some (n.origin <|> some nid) ∧
    (∀ ing, dataVal (update wp nid ing) b = dataVal wp b) ∧
    (∀ ing, dataVal (update wp b ing) nid = dataVal wp nid) := by
  have hW := branch_execution w nid k n sn w1 sb h1 h2 h4
  rw [hW] at h3
  injection h3 with hwp0 hb0
  injection hb0 with hb0
  have hb : b = (mkChain w1 (branchIngredients nid n sn)).2 := hb0.symm
  have hwp : wp = add_entry (mkChain w1 (branchIngredients nid n sn)).1 n.hist b := by
    rw [hb]
    exact hwp0.symm
  have hg : ((branchIngredients nid n sn).is_snapshot.getD false
      && (branchIngredients nid n sn).history.isSome) = false := rfl
  have hlen : b = w1.nodes.length := by
    rw [hb]
    exact mkChain_snd w1 _ hg
  have hnid_lt : nid < w.nodes.length := getNode_lt_length w nid n h1
  have hw1_ge : w.nodes.length ≤ w1.nodes.length := by
    have := nodesLength_rebuild_ge w n.hist k
    rw [h2] at this
    exact this
  have hbne : b ≠ nid := by omega
  -- facts about the freshly built node inside w2 := (mkChain w1 ...).1
  have hπd : ∀ (nn : Node) (a p : List Nat),
      Node.data { nn with ancestors := a, progeny := p } = nn.data := fun _ _ _ => rfl
  have hπo : ∀ (nn : Node) (a p : List Nat),
      Node.origin { nn with ancestors := a, progeny := p } = nn.origin := fun _ _ _ => rfl
  have hfreshd : (((mkChain w1 (branchIngredients nid n sn)).1.getNode b).map Node.data)
      = some sn.data := by
    rw [hlen]
    exact getNode_map_mkChain_self w1 _ Node.data hπd hg
  have hfresho : (((mkChain w1 (branchIngredients nid n sn)).1.getNode b).map Node.origin)
      = some (n.origin <|> some nid) := by
    rw [hlen]
    exact getNode_map_mkChain_self w1 _ Node.origin hπo hg
  have hbindd : (((mkChain w1 (branchIngredients nid n sn)).1.getNode b).bind Node.data)
      = sn.data := by
    rw [bind_data_eq_map_getD, hfreshd]
    rfl
  have hh2 : (mkChain w1 (branchIngredients nid n sn)).1.getHist n.hist = some hy1 := by
    rw [getHist_mkChain w1 _ n.hist (getHist_lt_length w1 n.hist hy1 h5)]
    exact h5
  have hlat2 : (((mkChain w1 (branchIngredients nid n sn)).1.getNode
      hy1.latest_state).bind Node.data) = lat1.data := by
    rw [bind_data_eq_map_getD,
      getNode_map_mkChain w1 _ hy1.latest_state Node.data hπd
        (getNode_lt_length w1 hy1.latest_state lat1 h6), h6]
    rfl
  have base2 : updFrame (mkChain w1 (branchIngredients nid n sn)).1 n.hist
      hy1.latest_state b
      (((mkChain w1 (branchIngredients nid n sn)).1.getNode hy1.latest_state).bind Node.data)
      (mkChain w1 (branchIngredients nid n sn)).1 :=
    updFrame_init _ n.hist hy1.latest_state b (by rw [hh2]; rfl)
  have hAE := updFrame_add_entry base2 b (fun moid loid hmo hlo => by
    rw [hbindd] at hmo
    rw [hlat2] at hlo
    exact hdisjS moid loid hmo hlo)
  obtain ⟨c1, c2, _, _⟩ := hAE
  refine ⟨hbne, ?_, ?_, ?_, ?_⟩
  · rw [hwp]
    unfold dataVal
    rw [c1, hbindd, h4]
    simp only [Option.some_bind]
    refine Option.bind_congr ?_
    intro soid hsoid
    have hsd : sn.data = some soid := hsoid
    rw [c2 soid (by rw [hbindd, hsd])]
    exact getObj_of_ext (objs_mkChain w1 _) (hso soid hsd)
  · rw [hwp]
    rw [getNode_map_add_entry _ _ _ _ Node.origin (fun nn md => rfl)]
    exact hfresho
  · intro ing
    exact dataVal_update_frame wp nid b lidA ing np g1 g2 (fun e => hbne e.symm) g3 gD1
  · intro ing
    exact dataVal_update_frame wp b nid lidB ing bn g5 g6 hbne g7 gD2

set_option maxHeartbeats 12800000 in
theorem branch_from_history_independence_witness :
    c3B ≠ exN ∧ dataVal c3Wp c3B = dataVal c3W1 c3Sb := by
  have h := branch_from_history_independence exW1 c3W1 c3Wp exN c3Sb c3B c3LidA c3LidB 0
    c3N c3Sn c3Np c3Bn c3Hy1 c3Lat1
    (by rfl) (by rfl) (by rfl) (by rfl) (by rfl) (by rfl)
    (fun soid loid hs hl => by
      have e1 : (5 : Nat) = soid := Option.some.inj hs
      have e2 : (2 : Nat) = loid := Option.some.inj hl
      omega)
    (fun soid hs => by
      have e1 : (5 : Nat) = soid := Option.some.inj hs
      have hlen : c3W1.objs.length = 6 := rfl
      omega)
    (by rfl) (by rfl) (by decide)
    (fun moid loid hm hl => by
      have e1 : (5 : Nat) = moid := Option.some.inj hm
      have e2 : (2 : Nat) = loid := Option.some.inj hl
      omega)
    (by rfl) (by rfl) (by decide)
    (fun moid loid hm hl => by
      have e1 : (4 : Nat) = moid := Option.some.inj hm
      have e2 : (7 : Nat) = loid := Option.some.inj hl
      omega)
  exact ⟨h.1, h.2.1⟩

end LC
